import Mathlib

/-!
Verification development for the status-reconciliation and operation-tracking
core of the `vscode-hg` extension (files `src/resourceGroups.ts` and the
repository model module).

The TypeScript code is shallowly embedded:

* `Uri.file(path.join(root, p))` is modelled by plain string concatenation
  `mkUri root p := root ++ "/" ++ p` — paths are treated as opaque
  identifiers, so `path.join` normalisation is not modelled.
* TypeScript exceptions are modelled with `Except String`; every operation
  that can `throw` returns `Except String α` and short-circuits exactly
  where the JavaScript evaluation order would.
* `fs.existsSync` is an external-world effect, modelled as an explicit
  oracle `existsOnDisk : String → Bool` passed to `groupStatuses`.
* JavaScript 32-bit bitwise arithmetic (`|`, `& ~`) on the operation mask is
  modelled on `Nat` restricted to values `< 2 ^ 32`, with `x & ~f` rendered
  as `x &&& (2 ^ 32 - 1 ^^^ f)`.
* `setTimeout` delays in the index-lock backoff are modelled by the exact
  rational durations the code computes (`ℚ` in place of IEEE doubles).
-/

set_option autoImplicit false

deriving instance DecidableEq for Except

namespace VscodeHg

/-- `enum Status` from the model module. -/
inductive Status where
  | MODIFIED
  | ADDED
  | DELETED
  | UNTRACKED
  | IGNORED
  | MISSING
  | RENAMED
  | CLEAN
deriving DecidableEq, Repr

/-- The numeric value of a `Status` member (TypeScript enums are numeric,
and `${this._status}` interpolates that number). -/
def Status.code : Status → Nat
  | .MODIFIED => 0
  | .ADDED => 1
  | .DELETED => 2
  | .UNTRACKED => 3
  | .IGNORED => 4
  | .MISSING => 5
  | .RENAMED => 6
  | .CLEAN => 7

/-- `enum MergeStatus` from the model module. -/
inductive MergeStatus where
  | NONE
  | UNRESOLVED
  | RESOLVED
deriving DecidableEq, Repr

/-- The five group identifiers (`ResourceGroupId = keyof IStatusGroups`). -/
inductive ResourceGroupId where
  | conflict
  | staging
  | merge
  | working
  | untracked
deriving DecidableEq, Repr

/-- `class Resource`.  The owning group is modelled by its identifier.
`original` is the `_resourceUri` field (exposed by the `original` getter),
`renameResourceUri` is `_renameResourceUri`. -/
structure Resource where
  resourceGroup : ResourceGroupId
  original : String
  status : Status
  mergeStatus : MergeStatus
  renameResourceUri : Option String := none
deriving DecidableEq, Repr

/-- The `Resource.resourceUri` getter: with a rename source present it
returns the rename source for `MODIFIED`/`RENAMED`/`ADDED` and throws for
every other status; without a rename source it returns `_resourceUri`. -/
def Resource.resourceUri (r : Resource) : Except String String :=
  match r.renameResourceUri with
  | some ru =>
    if r.status = Status.MODIFIED ∨ r.status = Status.RENAMED ∨ r.status = Status.ADDED then
      Except.ok ru
    else
      Except.error ("Renamed resource with unexpected status: " ++ toString r.status.code)
  | none => Except.ok r.original

/-- `abstract class ResourceGroup`: an identifier plus the ordered resource
sequence.  The derived uri index is recomputed from `resources` on demand
(`indexResources` below), which coincides with the constructor-built index. -/
structure ResourceGroup where
  id : ResourceGroupId
  resources : List Resource
deriving DecidableEq, Repr

/-- `ResourceGroup.indexResources`: the set of `resourceUri` strings of a
resource list.  Evaluating a getter may throw, and the exception propagates. -/
def indexResources : List Resource → Except String (List String)
  | [] => Except.ok []
  | r :: rest =>
    match r.resourceUri with
    | Except.error e => Except.error e
    | Except.ok u =>
      match indexResources rest with
      | Except.error e => Except.error e
      | Except.ok us => Except.ok (u :: us)

/-- `resources.some(r => r.resourceUri.toString() === uriString)` — the
short-circuiting membership scan used for the previous-staging check. -/
def anyUriEquals : List Resource → String → Except String Bool
  | [], _ => Except.ok false
  | r :: rest, u =>
    match r.resourceUri with
    | Except.error e => Except.error e
    | Except.ok ru => if ru = u then Except.ok true else anyUriEquals rest u

/-- `ResourceGroup.includesUri`: membership in the derived uri index. -/
def ResourceGroup.includesUri (g : ResourceGroup) (uri : String) : Except String Bool :=
  match indexResources g.resources with
  | Except.error e => Except.error e
  | Except.ok index => Except.ok (index.contains uri)

/-- `ResourceGroup.includes`: membership of a resource by its effective uri. -/
def ResourceGroup.includes (g : ResourceGroup) (r : Resource) : Except String Bool :=
  match r.resourceUri with
  | Except.error e => Except.error e
  | Except.ok u => g.includesUri u

/-- `resources.filter(r => !this.includes(r))` from `ResourceGroup.intersect`. -/
def filterNotIncluded (g : ResourceGroup) : List Resource → Except String (List Resource)
  | [] => Except.ok []
  | r :: rest =>
    match g.includes r with
    | Except.error e => Except.error e
    | Except.ok b =>
      match filterNotIncluded g rest with
      | Except.error e => Except.error e
      | Except.ok rest' => Except.ok (if b then rest' else r :: rest')

/-- `.map(r => new Resource(this, r.resourceUri, r.status, r.mergeStatus))`
from `ResourceGroup.intersect`: re-home each resource into group `gid`,
keeping status and merge status and dropping the rename binding. -/
def rehome (gid : ResourceGroupId) : List Resource → Except String (List Resource)
  | [] => Except.ok []
  | r :: rest =>
    match r.resourceUri with
    | Except.error e => Except.error e
    | Except.ok u =>
      match rehome gid rest with
      | Except.error e => Except.error e
      | Except.ok rest' =>
        Except.ok ({ resourceGroup := gid, original := u, status := r.status,
                     mergeStatus := r.mergeStatus, renameResourceUri := none } :: rest')

/-- `ResourceGroup.intersect`. -/
def ResourceGroup.intersect (g : ResourceGroup) (resources : List Resource) :
    Except String ResourceGroup :=
  match filterNotIncluded g resources with
  | Except.error e => Except.error e
  | Except.ok newUnique =>
    match rehome g.id newUnique with
    | Except.error e => Except.error e
    | Except.ok newUniqueResources =>
      Except.ok { id := g.id, resources := g.resources ++ newUniqueResources }

/-- `this.resources.filter(r => !excludeIndex.has(r.resourceUri.toString()))`
from `ResourceGroup.except`. -/
def filterNotInIndex (index : List String) : List Resource → Except String (List Resource)
  | [] => Except.ok []
  | r :: rest =>
    match r.resourceUri with
    | Except.error e => Except.error e
    | Except.ok u =>
      match filterNotInIndex index rest with
      | Except.error e => Except.error e
      | Except.ok rest' => Except.ok (if index.contains u then rest' else r :: rest')

/-- `ResourceGroup.except`. -/
def ResourceGroup.except (g : ResourceGroup) (resources : List Resource) :
    Except String ResourceGroup :=
  match indexResources resources with
  | Except.error e => Except.error e
  | Except.ok excludeIndex =>
    match filterNotInIndex excludeIndex g.resources with
    | Except.error e => Except.error e
    | Except.ok remaining => Except.ok { id := g.id, resources := remaining }

/-- `IFileStatus`: one raw status (or resolve-list) record. -/
structure IFileStatus where
  path : String
  status : String
  rename : Option String := none
deriving DecidableEq, Repr

/-- `IRepoStatus` (only the `isMerge` flag is consumed by the reconciler). -/
structure IRepoStatus where
  isMerge : Bool
deriving DecidableEq, Repr

/-- `IStatusGroups`: the five groups as one snapshot. -/
structure IStatusGroups where
  conflict : ResourceGroup
  staging : ResourceGroup
  merge : ResourceGroup
  working : ResourceGroup
  untracked : ResourceGroup
deriving DecidableEq, Repr

/-- `createEmptyStatusGroups`. -/
def createEmptyStatusGroups : IStatusGroups :=
  { conflict := { id := .conflict, resources := [] }
    staging := { id := .staging, resources := [] }
    merge := { id := .merge, resources := [] }
    working := { id := .working, resources := [] }
    untracked := { id := .untracked, resources := [] } }

/-- `IGroupStatusesParams`. -/
structure IGroupStatusesParams where
  respositoryRoot : String
  statusGroups : IStatusGroups
  fileStatuses : List IFileStatus
  repoStatus : IRepoStatus
  resolveStatuses : Option (List IFileStatus)
deriving DecidableEq, Repr

/-- `Uri.file(path.join(root, p)).toString()`, modelled as plain
concatenation (see the module docstring); `uri.fsPath` is the same string. -/
def mkUri (root p : String) : String := root ++ "/" ++ p

/-- `function toMergeStatus(status: string): MergeStatus`. -/
def toMergeStatus (status : String) : MergeStatus :=
  if status = "R" then MergeStatus.RESOLVED
  else if status = "U" then MergeStatus.UNRESOLVED
  else MergeStatus.NONE

/-- The `switch (rawStatus)` at the top of `chooseResourcesAndGroup`;
`none` is the `default` case, which throws. -/
def statusOfRawCode (rawStatus : String) (renamed : Bool) : Option Status :=
  if rawStatus = "M" then some Status.MODIFIED
  else if rawStatus = "R" then some Status.DELETED
  else if rawStatus = "I" then some Status.IGNORED
  else if rawStatus = "?" then some Status.UNTRACKED
  else if rawStatus = "!" then some Status.MISSING
  else if rawStatus = "A" then some (if renamed then Status.RENAMED else Status.ADDED)
  else if rawStatus = "C" then some Status.CLEAN
  else none

/-- `chooseResourcesAndGroup` from `groupStatuses`.  `stagingPrev` is the
resource list of the previous staging group that the closure captures and
`im` is `repoStatus.isMerge`.  The returned pair is the chosen destination
group (the target array and group object always agree, so one identifier
suffices) together with the mapped semantic status. -/
def chooseResourcesAndGroup (stagingPrev : List Resource) (im : Bool)
    (uriString rawStatus : String) (mergeStatus : MergeStatus) (renamed : Bool) :
    Except String (ResourceGroupId × Status) :=
  match statusOfRawCode rawStatus renamed with
  | none => Except.error ("Unknown rawStatus: " ++ rawStatus)
  | some status =>
    if status = Status.IGNORED ∨ status = Status.UNTRACKED then
      Except.ok (ResourceGroupId.untracked, status)
    else if im then
      if mergeStatus = MergeStatus.UNRESOLVED then
        Except.ok (ResourceGroupId.conflict, status)
      else
        Except.ok (ResourceGroupId.merge, status)
    else
      match anyUriEquals stagingPrev uriString with
      | Except.error e => Except.error e
      | Except.ok true => Except.ok (ResourceGroupId.staging, status)
      | Except.ok false => Except.ok (ResourceGroupId.working, status)

/-- The five accumulator arrays of `groupStatuses`. -/
structure GroupLists where
  conflict : List Resource := []
  merge : List Resource := []
  staging : List Resource := []
  working : List Resource := []
  untracked : List Resource := []
deriving DecidableEq, Repr

/-- Select the accumulator array for a group identifier. -/
def GroupLists.get (acc : GroupLists) : ResourceGroupId → List Resource
  | .conflict => acc.conflict
  | .merge => acc.merge
  | .staging => acc.staging
  | .working => acc.working
  | .untracked => acc.untracked

/-- `resources.push(...)` on the accumulator array chosen by
`chooseResourcesAndGroup`. -/
def GroupLists.push (acc : GroupLists) (gid : ResourceGroupId) (r : Resource) : GroupLists :=
  match gid with
  | .conflict => { acc with conflict := acc.conflict ++ [r] }
  | .merge => { acc with merge := acc.merge ++ [r] }
  | .staging => { acc with staging := acc.staging ++ [r] }
  | .working => { acc with working := acc.working ++ [r] }
  | .untracked => { acc with untracked := acc.untracked ++ [r] }

/-- `resolveStatuses && resolveStatuses.filter(res => res.path === raw.path)[0]`
followed by `toMergeStatus`, defaulting to `MergeStatus.NONE`. -/
def fpMergeStatus (resolveStatuses : Option (List IFileStatus)) (p : String) : MergeStatus :=
  match (resolveStatuses.getD []).find? (fun res => res.path = p) with
  | some res => toMergeStatus res.status
  | none => MergeStatus.NONE

/-- The first `for (const raw of fileStatuses)` loop of `groupStatuses`. -/
def firstPass (stagingPrev : List Resource) (im : Bool) (root : String)
    (resolveStatuses : Option (List IFileStatus)) :
    List IFileStatus → GroupLists → Except String GroupLists
  | [], acc => Except.ok acc
  | raw :: rest, acc =>
    let uriString := mkUri root raw.path
    let renameUri := raw.rename.map (mkUri root)
    let mergeStatus := fpMergeStatus resolveStatuses raw.path
    match chooseResourcesAndGroup stagingPrev im uriString raw.status mergeStatus raw.rename.isSome with
    | Except.error e => Except.error e
    | Except.ok (gid, status) =>
      firstPass stagingPrev im root resolveStatuses rest
        (acc.push gid { resourceGroup := gid, original := uriString, status := status,
                        mergeStatus := mergeStatus, renameResourceUri := renameUri })

/-- The second `for (const raw of resolveStatuses)` loop of `groupStatuses`.
`seen` is the `seenUriStrings` map after the first pass (it is *not*
extended by this loop). -/
def secondPass (stagingPrev : List Resource) (im : Bool) (root : String)
    (existsOnDisk : String → Bool) (seen : List String) :
    List IFileStatus → GroupLists → Except String GroupLists
  | [], acc => Except.ok acc
  | raw :: rest, acc =>
    let uriString := mkUri root raw.path
    if seen.contains uriString then
      secondPass stagingPrev im root existsOnDisk seen rest acc
    else
      let mergeStatus := toMergeStatus raw.status
      let inferredStatus := if existsOnDisk uriString then "C" else "R"
      match chooseResourcesAndGroup stagingPrev im uriString inferredStatus mergeStatus raw.rename.isSome with
      | Except.error e => Except.error e
      | Except.ok (gid, status) =>
        secondPass stagingPrev im root existsOnDisk seen rest
          (acc.push gid { resourceGroup := gid, original := uriString, status := status,
                          mergeStatus := mergeStatus, renameResourceUri := none })

/-- The final `return { conflict: new ConflictGroup(...), ... }` of
`groupStatuses`: each `ResourceGroup` constructor builds its uri index via
`indexResources`, which evaluates every resource's `resourceUri` getter, so
a getter error (a resource with a rename source and a status other than
MODIFIED/RENAMED/ADDED) propagates instead of a snapshot being returned.
The constructors run in the object-literal order conflict, merge, staging,
working, untracked. -/
def buildStatusGroups (acc : GroupLists) : Except String IStatusGroups :=
  match indexResources acc.conflict with
  | Except.error e => Except.error e
  | Except.ok _ =>
    match indexResources acc.merge with
    | Except.error e => Except.error e
    | Except.ok _ =>
      match indexResources acc.staging with
      | Except.error e => Except.error e
      | Except.ok _ =>
        match indexResources acc.working with
        | Except.error e => Except.error e
        | Except.ok _ =>
          match indexResources acc.untracked with
          | Except.error e => Except.error e
          | Except.ok _ =>
            Except.ok
              { conflict := { id := .conflict, resources := acc.conflict }
                merge := { id := .merge, resources := acc.merge }
                staging := { id := .staging, resources := acc.staging }
                working := { id := .working, resources := acc.working }
                untracked := { id := .untracked, resources := acc.untracked } }

/-- `function groupStatuses(params: IGroupStatusesParams): IStatusGroups`.
`existsOnDisk` is the `fs.existsSync` oracle. -/
def groupStatuses (existsOnDisk : String → Bool) (params : IGroupStatusesParams) :
    Except String IStatusGroups :=
  let stagingPrev := params.statusGroups.staging.resources
  let im := params.repoStatus.isMerge
  let root := params.respositoryRoot
  match firstPass stagingPrev im root params.resolveStatuses params.fileStatuses {} with
  | Except.error e => Except.error e
  | Except.ok acc1 =>
    let seen := params.fileStatuses.map (fun raw => mkUri root raw.path)
    let pass2 :=
      match params.resolveStatuses with
      | some resolves => secondPass stagingPrev im root existsOnDisk seen resolves acc1
      | none => Except.ok acc1
    match pass2 with
    | Except.error e => Except.error e
    | Except.ok acc2 => buildStatusGroups acc2

/-- Membership of a file location in a resource list, by constructed uri. -/
def inGroupList (rs : List Resource) (u : String) : Bool :=
  rs.any (fun r => r.original == u)

/-- The resource list of the group named `gid` inside a snapshot. -/
def outList (out : IStatusGroups) : ResourceGroupId → List Resource
  | .conflict => out.conflict.resources
  | .merge => out.merge.resources
  | .staging => out.staging.resources
  | .working => out.working.resources
  | .untracked => out.untracked.resources

/-- Total number of resources across the five groups of a snapshot. -/
def totalResources (out : IStatusGroups) : Nat :=
  out.conflict.resources.length + out.merge.resources.length +
    out.staging.resources.length + out.working.resources.length +
    out.untracked.resources.length

/-- `enum Operation` from the model module (the commented-out
`CountIncoming`/`CountOutgoing` members leave gaps at bits 8 and 16; bit 8
is reused by `RollbackDryRun`). -/
inductive Operation where
  | Status
  | Add
  | RevertFiles
  | Commit
  | Clean
  | Branch
  | Update
  | Rollback
  | RollbackDryRun
  | Pull
  | Push
  | Sync
  | Init
  | Show
  | Stage
  | GetCommitTemplate
  | Resolve
  | Unresolve
  | Parents
  | Forget
  | Merge
  | AddRemove
  | SetBookmark
  | RemoveBookmark
  | Annotate
deriving DecidableEq, Repr

/-- The bit position of each `Operation` flag. -/
def Operation.bitIndex : Operation → Nat
  | .Status => 0
  | .Add => 1
  | .RevertFiles => 2
  | .Commit => 3
  | .Clean => 4
  | .Branch => 5
  | .Update => 6
  | .Rollback => 7
  | .RollbackDryRun => 8
  | .Pull => 9
  | .Push => 10
  | .Sync => 11
  | .Init => 12
  | .Show => 13
  | .Stage => 14
  | .GetCommitTemplate => 15
  | .Resolve => 17
  | .Unresolve => 18
  | .Parents => 19
  | .Forget => 20
  | .Merge => 21
  | .AddRemove => 22
  | .SetBookmark => 23
  | .RemoveBookmark => 24
  | .Annotate => 25

/-- The numeric flag value of an operation (`1 << n` in the enum). -/
def Operation.flag (op : Operation) : Nat := 1 <<< op.bitIndex

/-- `function isReadOnly(operation: Operation): boolean`. -/
def isReadOnly (operation : Operation) : Bool :=
  match operation with
  | .Show => true
  | .GetCommitTemplate => true
  | _ => false

/-- `class OperationsImpl`: the bitmask of running operations.  JavaScript
bitwise operators act on 32-bit integers, so the mask is a `Nat < 2 ^ 32`. -/
structure OperationsImpl where
  operations : Nat := 0
deriving DecidableEq, Repr

/-- `start(operation)`: `new OperationsImpl(this.operations | operation)`. -/
def OperationsImpl.start (t : OperationsImpl) (op : Operation) : OperationsImpl :=
  { operations := t.operations ||| op.flag }

/-- `end(operation)`: `new OperationsImpl(this.operations & ~operation)`;
the 32-bit AND-NOT is `&&&` with the flag's 32-bit complement. -/
def OperationsImpl.«end» (t : OperationsImpl) (op : Operation) : OperationsImpl :=
  { operations := t.operations &&& (2 ^ 32 - 1 ^^^ op.flag) }

/-- `isRunning(operation)`: `(this.operations & operation) !== 0`. -/
def OperationsImpl.isRunning (t : OperationsImpl) (op : Operation) : Bool :=
  t.operations &&& op.flag != 0

/-- `isIdle()`: `this.operations === 0`. -/
def OperationsImpl.isIdle (t : OperationsImpl) : Bool :=
  t.operations == 0

/-- The loop of `Model.whenUnlocked`, returning the list of backoff sleep
durations (in milliseconds) it performs.  `lockExists n` tells whether the
`.hg/index.lock` existence check made with `retries = n` succeeds; `millis`
starts at 100 and is multiplied by 1.4 *before* each sleep. -/
def backoffLoop (lockExists : Nat → Bool) (millis : ℚ) (retries : Nat) : List ℚ :=
  if retries < 10 ∧ lockExists retries = true then
    (millis * (14 / 10)) :: backoffLoop lockExists (millis * (14 / 10)) (retries + 1)
  else
    []
termination_by 10 - retries
decreasing_by omega

/-- `Model.whenUnlocked` as the sequence of sleeps it performs before
returning (it always returns). -/
def whenUnlockedWaits (lockExists : Nat → Bool) : List ℚ :=
  backoffLoop lockExists 100 0

/-- The optimistic immediate update of `Model.countIncomingAfterDelay`:
`if (expectedDelta) { incoming = Math.max(0, incoming + expectedDelta) }`
(`0` is falsy, so a zero delta performs no update). -/
def countIncomingOptimistic (incoming : Int) (expectedDelta : Int) : Int :=
  if expectedDelta ≠ 0 then max 0 (incoming + expectedDelta) else incoming

/-- The optimistic immediate update of `Model.countOutgoingAfterDelay`. -/
def countOutgoingOptimistic (outgoing : Int) (expectedDelta : Int) : Int :=
  if expectedDelta ≠ 0 then max 0 (outgoing + expectedDelta) else outgoing

/-- Total number of resources across the five accumulator arrays. -/
def GroupLists.total (acc : GroupLists) : Nat :=
  acc.conflict.length + acc.merge.length + acc.staging.length +
    acc.working.length + acc.untracked.length

/-- Provenance of a resource emitted by the first pass: it was built for the
raw record `raw`, with `chooseResourcesAndGroup` picking the group `gid`. -/
def fpEmit (stagingPrev : List Resource) (im : Bool) (root : String)
    (resolveStatuses : Option (List IFileStatus)) (raw : IFileStatus)
    (gid : ResourceGroupId) (r : Resource) : Prop :=
  r.original = mkUri root raw.path ∧
  r.mergeStatus = fpMergeStatus resolveStatuses raw.path ∧
  r.renameResourceUri = raw.rename.map (mkUri root) ∧
  r.resourceGroup = gid ∧
  chooseResourcesAndGroup stagingPrev im (mkUri root raw.path) raw.status
    (fpMergeStatus resolveStatuses raw.path) raw.rename.isSome = Except.ok (gid, r.status)

/-- Provenance of a resource synthesized by the second pass for the resolve
record `raw`, with its raw status inferred from disk existence. -/
def spEmit (stagingPrev : List Resource) (im : Bool) (root : String)
    (existsOnDisk : String → Bool) (raw : IFileStatus)
    (gid : ResourceGroupId) (r : Resource) : Prop :=
  r.original = mkUri root raw.path ∧
  r.mergeStatus = toMergeStatus raw.status ∧
  r.renameResourceUri = none ∧
  r.resourceGroup = gid ∧
  chooseResourcesAndGroup stagingPrev im (mkUri root raw.path)
    (if existsOnDisk (mkUri root raw.path) then "C" else "R")
    (toMergeStatus raw.status) raw.rename.isSome = Except.ok (gid, r.status)

/-- Extract the snapshot from a reconciliation result (empty groups on error). -/
def groupsOfResult (e : Except String IStatusGroups) : IStatusGroups :=
  match e with
  | Except.ok g => g
  | Except.error _ => createEmptyStatusGroups

/-- Every resource in the list has a non-throwing `resourceUri` getter. -/
def validUris (rs : List Resource) : Prop :=
  ∀ r ∈ rs, ∃ u, r.resourceUri = Except.ok u

/-- Reconciliation input with duplicate paths in the resolve list: two
resolve records for path `a`, one `U` and one `R`, no raw status records,
repository mid-merge. -/
def exC2Params : IGroupStatusesParams :=
  { respositoryRoot := "/repo"
    statusGroups := createEmptyStatusGroups
    fileStatuses := []
    repoStatus := { isMerge := true }
    resolveStatuses := some [{ path := "a", status := "U" }, { path := "a", status := "R" }] }

/-- A benign reconciliation input: one modified file, not mid-merge. -/
def exC2OkParams : IGroupStatusesParams :=
  { respositoryRoot := "/repo"
    statusGroups := createEmptyStatusGroups
    fileStatuses := [{ path := "a.txt", status := "M" }]
    repoStatus := { isMerge := false }
    resolveStatuses := none }

/-- A reconciliation input with two raw records at the same path, one
modified and one untracked (duplicate locations in the raw status list). -/
def exC2WParams : IGroupStatusesParams :=
  { respositoryRoot := "/repo"
    statusGroups := createEmptyStatusGroups
    fileStatuses := [{ path := "a", status := "M" }, { path := "a", status := "?" }]
    repoStatus := { isMerge := false }
    resolveStatuses := none }

/-- Reconciliation input carrying an unknown raw status code `X`. -/
def exC3Params : IGroupStatusesParams :=
  { respositoryRoot := "/repo"
    statusGroups := createEmptyStatusGroups
    fileStatuses := [{ path := "a.txt", status := "X" }]
    repoStatus := { isMerge := false }
    resolveStatuses := none }

/-- Scenario D from the specification: empty raw status list, one
unresolved resolve record, repository mid-merge. -/
def exC4Params : IGroupStatusesParams :=
  { respositoryRoot := "/repo"
    statusGroups := createEmptyStatusGroups
    fileStatuses := [{ path := "a.txt", status := "M" }]
    repoStatus := { isMerge := true }
    resolveStatuses := some [{ path := "c.txt", status := "U" }, { path := "a.txt", status := "R" }] }

/-- Reconciliation input whose resolve records carry unrecognized codes. -/
def exC10Params : IGroupStatusesParams :=
  { respositoryRoot := "/repo"
    statusGroups := createEmptyStatusGroups
    fileStatuses := [{ path := "a.txt", status := "M" }]
    repoStatus := { isMerge := true }
    resolveStatuses := some [{ path := "a.txt", status := "Z" }, { path := "b.txt", status := "Q" }] }

/-- A concrete staging group with one resource, for the recombination laws. -/
def exC5Group : ResourceGroup :=
  { id := ResourceGroupId.staging
    resources := [{ resourceGroup := ResourceGroupId.staging, original := "/repo/a.txt",
                    status := Status.MODIFIED, mergeStatus := MergeStatus.NONE }] }

/-- A concrete input resource list for the recombination laws: one resource
already in `exC5Group` and one new renamed resource from another group. -/
def exC5List : List Resource :=
  [{ resourceGroup := ResourceGroupId.staging, original := "/repo/a.txt",
     status := Status.MODIFIED, mergeStatus := MergeStatus.NONE },
   { resourceGroup := ResourceGroupId.working, original := "/repo/b.txt",
     status := Status.RENAMED, mergeStatus := MergeStatus.NONE,
     renameResourceUri := some "/repo/c.txt" }]

/-! ### Supporting lemmas -/

theorem Operation.flag_eq_two_pow (op : Operation) : op.flag = 2 ^ op.bitIndex :=
  Nat.one_shiftLeft op.bitIndex

theorem Operation.bitIndex_lt_32 (op : Operation) : op.bitIndex < 32 := by
  cases op <;> decide

theorem isRunning_eq_testBit (t : OperationsImpl) (op : Operation) :
    t.isRunning op = t.operations.testBit op.bitIndex := by
  rw [OperationsImpl.isRunning, Operation.flag_eq_two_pow]
  rcases h : t.operations.testBit op.bitIndex with _ | _
  · have : t.operations &&& 2 ^ op.bitIndex = 0 := by
      apply Nat.eq_of_testBit_eq
      intro i
      rw [Nat.testBit_and, Nat.testBit_two_pow]
      by_cases hik : op.bitIndex = i
      · subst hik
        simp [h]
      · simp [hik]
    simp [this]
  · have : t.operations &&& 2 ^ op.bitIndex ≠ 0 := by
      intro h0
      have := congrArg (fun n => Nat.testBit n op.bitIndex) h0
      simp [Nat.testBit_and, Nat.testBit_two_pow, h] at this
    simp [this]

theorem start_end_mask (x k : Nat) (hk : k < 32) (hx : x < 2 ^ 32)
    (hrun : x &&& 2 ^ k = 0) :
    (x ||| 2 ^ k) &&& (2 ^ 32 - 1 ^^^ 2 ^ k) = x := by
  apply Nat.eq_of_testBit_eq
  intro i
  have hxk : x.testBit k = false := by
    have h0 : (x &&& 2 ^ k).testBit k = (0 : Nat).testBit k := by rw [hrun]
    rw [Nat.testBit_and, Nat.testBit_two_pow] at h0
    simpa using h0
  rw [Nat.testBit_and, Nat.testBit_or, Nat.testBit_xor, Nat.testBit_two_pow_sub_one,
    Nat.testBit_two_pow]
  by_cases hik : k = i
  · subst hik
    simp [hxk, hk]
  · by_cases hi : i < 32
    · simp [hik, hi]
    · have hx32 : x.testBit i = false :=
        Nat.testBit_lt_two_pow (lt_of_lt_of_le hx (Nat.pow_le_pow_right (by norm_num) (by omega)))
      simp [hik, hi, hx32]

theorem backoffLoop_length_le : ∀ (n : Nat) (le : Nat → Bool) (m : ℚ) (r : Nat), 10 - r ≤ n →
    (backoffLoop le m r).length ≤ n := by
  intro n
  induction n with
  | zero =>
    intro le m r hr
    rw [backoffLoop, if_neg]
    · simp
    · rintro ⟨h1, _⟩
      omega
  | succ n ih =>
    intro le m r hr
    rw [backoffLoop]
    split
    · next h =>
      simp only [List.length_cons]
      have := ih le (m * (14 / 10)) (r + 1) (by omega)
      omega
    · simp

theorem backoffLoop_getD : ∀ (n : Nat) (le : Nat → Bool) (m : ℚ) (r : Nat), 10 - r ≤ n →
    ∀ k : Nat, (backoffLoop le m r).getD k 0 =
      if k < (backoffLoop le m r).length then m * (14 / 10) ^ (k + 1) else 0 := by
  intro n
  induction n with
  | zero =>
    intro le m r hr k
    rw [backoffLoop, if_neg]
    · simp
    · rintro ⟨h1, _⟩
      omega
  | succ n ih =>
    intro le m r hr k
    rw [backoffLoop]
    split
    · next h =>
      match k with
      | 0 => simp [List.getD]
      | k + 1 =>
        simp only [List.getD_cons_succ, List.length_cons]
        rw [ih le (m * (14 / 10)) (r + 1) (by omega) k]
        by_cases hk : k < (backoffLoop le (m * (14 / 10)) (r + 1)).length
        · rw [if_pos hk, if_pos (by omega)]
          ring
        · rw [if_neg hk, if_neg (by omega)]
    · simp

theorem anyUriEquals_ok_iff : ∀ (rs : List Resource) (u : String) (b : Bool),
    anyUriEquals rs u = Except.ok b →
    (b = true ↔ ∃ r ∈ rs, r.resourceUri = Except.ok u) := by
  intro rs
  induction rs with
  | nil =>
    intro u b h
    rw [anyUriEquals] at h
    cases h
    simp
  | cons r rest ih =>
    intro u b h
    rw [anyUriEquals] at h
    cases hru : r.resourceUri with
    | error e =>
      rw [hru] at h
      cases h
    | ok ru =>
      rw [hru] at h
      dsimp only at h
      by_cases hequ : ru = u
      · rw [if_pos hequ] at h
        cases h
        subst hequ
        simp only [true_iff]
        exact ⟨r, List.mem_cons_self r rest, hru⟩
      · rw [if_neg hequ] at h
        rw [ih u b h]
        constructor
        · rintro ⟨r', hr', hu'⟩
          exact ⟨r', List.mem_cons_of_mem r hr', hu'⟩
        · rintro ⟨r', hr', hu'⟩
          rcases List.mem_cons.mp hr' with rfl | hr'
          · rw [hru] at hu'
            cases hu'
            exact absurd rfl hequ
          · exact ⟨r', hr', hu'⟩

theorem anyUriEquals_ok_of_valid : ∀ (rs : List Resource), validUris rs → ∀ u : String,
    ∃ b, anyUriEquals rs u = Except.ok b := by
  intro rs
  induction rs with
  | nil =>
    intro _ u
    exact ⟨false, rfl⟩
  | cons r rest ih =>
    intro hval u
    obtain ⟨ru, hru⟩ := hval r (List.mem_cons_self r rest)
    have hrest : validUris rest := fun r' hr' => hval r' (List.mem_cons_of_mem r hr')
    obtain ⟨b, hb⟩ := ih hrest u
    by_cases hequ : ru = u
    · refine ⟨true, ?_⟩
      rw [anyUriEquals, hru]
      dsimp only
      rw [if_pos hequ]
    · refine ⟨b, ?_⟩
      rw [anyUriEquals, hru]
      dsimp only
      rw [if_neg hequ]
      exact hb

theorem choose_ok_inv {sp : List Resource} {im : Bool} {u c : String} {ms : MergeStatus}
    {rn : Bool} {gid : ResourceGroupId} {st : Status}
    (h : chooseResourcesAndGroup sp im u c ms rn = Except.ok (gid, st)) :
    statusOfRawCode c rn = some st ∧
    ((st = Status.IGNORED ∨ st = Status.UNTRACKED) → gid = ResourceGroupId.untracked) ∧
    (¬(st = Status.IGNORED ∨ st = Status.UNTRACKED) →
      (im = true → ((ms = MergeStatus.UNRESOLVED ∧ gid = ResourceGroupId.conflict) ∨
                    (ms ≠ MergeStatus.UNRESOLVED ∧ gid = ResourceGroupId.merge))) ∧
      (im = false → ((anyUriEquals sp u = Except.ok true ∧ gid = ResourceGroupId.staging) ∨
                     (anyUriEquals sp u = Except.ok false ∧ gid = ResourceGroupId.working)))) := by
  rw [chooseResourcesAndGroup] at h
  cases hsc : statusOfRawCode c rn with
  | none =>
    rw [hsc] at h
    cases h
  | some status =>
    rw [hsc] at h
    dsimp only at h
    by_cases hun : status = Status.IGNORED ∨ status = Status.UNTRACKED
    · rw [if_pos hun] at h
      cases h
      exact ⟨rfl, fun _ => rfl, fun hcon => absurd hun hcon⟩
    · rw [if_neg hun] at h
      cases im with
      | true =>
        rw [if_pos rfl] at h
        by_cases hms : ms = MergeStatus.UNRESOLVED
        · rw [if_pos hms] at h
          cases h
          refine ⟨rfl, fun hcon => absurd hcon hun, fun _ => ⟨fun _ => ?_, fun hf => nomatch hf⟩⟩
          exact Or.inl ⟨hms, rfl⟩
        · rw [if_neg hms] at h
          cases h
          refine ⟨rfl, fun hcon => absurd hcon hun, fun _ => ⟨fun _ => ?_, fun hf => nomatch hf⟩⟩
          exact Or.inr ⟨hms, rfl⟩
      | false =>
        rw [if_neg (by simp)] at h
        cases haq : anyUriEquals sp u with
        | error e =>
          rw [haq] at h
          cases h
        | ok b =>
          rw [haq] at h
          cases b with
          | true =>
            cases h
            refine ⟨rfl, fun hcon => absurd hcon hun, fun _ => ⟨?_, ?_⟩⟩
            · intro ht
              exact nomatch ht
            · intro _
              exact Or.inl ⟨rfl, rfl⟩
          | false =>
            cases h
            refine ⟨rfl, fun hcon => absurd hcon hun, fun _ => ⟨?_, ?_⟩⟩
            · intro ht
              exact nomatch ht
            · intro _
              exact Or.inr ⟨rfl, rfl⟩

theorem choose_untracked_iff {sp : List Resource} {im : Bool} {u c : String} {ms : MergeStatus}
    {rn : Bool} {gid : ResourceGroupId} {st : Status}
    (h : chooseResourcesAndGroup sp im u c ms rn = Except.ok (gid, st)) :
    (gid = ResourceGroupId.untracked ↔ (st = Status.IGNORED ∨ st = Status.UNTRACKED)) := by
  obtain ⟨-, hunt, htrk⟩ := choose_ok_inv h
  constructor
  · intro hg
    by_contra hcon
    obtain ⟨hmt, hmf⟩ := htrk hcon
    cases im with
    | true =>
      rcases hmt rfl with ⟨-, rfl⟩ | ⟨-, rfl⟩ <;> cases hg
    | false =>
      rcases hmf rfl with ⟨-, rfl⟩ | ⟨-, rfl⟩ <;> cases hg
  · exact hunt

theorem choose_tracked_dest {sp : List Resource} {im : Bool} {u : String}
    {c₁ c₂ : String} {ms : MergeStatus} {rn₁ rn₂ : Bool}
    {g₁ g₂ : ResourceGroupId} {s₁ s₂ : Status}
    (h₁ : chooseResourcesAndGroup sp im u c₁ ms rn₁ = Except.ok (g₁, s₁))
    (h₂ : chooseResourcesAndGroup sp im u c₂ ms rn₂ = Except.ok (g₂, s₂))
    (hg₁ : g₁ ≠ ResourceGroupId.untracked) (hg₂ : g₂ ≠ ResourceGroupId.untracked) :
    g₁ = g₂ := by
  have hst₁ : ¬(s₁ = Status.IGNORED ∨ s₁ = Status.UNTRACKED) :=
    fun hcon => hg₁ ((choose_untracked_iff h₁).mpr hcon)
  have hst₂ : ¬(s₂ = Status.IGNORED ∨ s₂ = Status.UNTRACKED) :=
    fun hcon => hg₂ ((choose_untracked_iff h₂).mpr hcon)
  obtain ⟨-, -, htrk₁⟩ := choose_ok_inv h₁
  obtain ⟨-, -, htrk₂⟩ := choose_ok_inv h₂
  cases im with
  | true =>
    rcases (htrk₁ hst₁).1 rfl with ⟨hm₁, rfl⟩ | ⟨hm₁, rfl⟩ <;>
      rcases (htrk₂ hst₂).1 rfl with ⟨hm₂, rfl⟩ | ⟨hm₂, rfl⟩
    · rfl
    · exact absurd hm₁ hm₂
    · exact absurd hm₂ hm₁
    · rfl
  | false =>
    rcases (htrk₁ hst₁).2 rfl with ⟨ha₁, rfl⟩ | ⟨ha₁, rfl⟩ <;>
      rcases (htrk₂ hst₂).2 rfl with ⟨ha₂, rfl⟩ | ⟨ha₂, rfl⟩
    · rfl
    · rw [ha₁] at ha₂
      cases ha₂
    · rw [ha₁] at ha₂
      cases ha₂
    · rfl

theorem firstPass_ok_classified :
    ∀ (fs : List IFileStatus) (sp : List Resource) (im : Bool) (root : String)
      (resolves : Option (List IFileStatus)) (acc acc' : GroupLists),
    firstPass sp im root resolves fs acc = Except.ok acc' →
    ∀ raw ∈ fs, (statusOfRawCode raw.status raw.rename.isSome).isSome := by
  intro fs
  induction fs with
  | nil =>
    intro sp im root resolves acc acc' h raw hraw
    cases hraw
  | cons raw rest ih =>
    intro sp im root resolves acc acc' h raw' hraw'
    rw [firstPass] at h
    cases hch : chooseResourcesAndGroup sp im (mkUri root raw.path) raw.status
        (fpMergeStatus resolves raw.path) raw.rename.isSome with
    | error e =>
      rw [hch] at h
      cases h
    | ok gs =>
      rw [hch] at h
      rcases List.mem_cons.mp hraw' with rfl | hmem
      · obtain ⟨gid, status⟩ := gs
        obtain ⟨hsc, -, -⟩ := choose_ok_inv hch
        rw [hsc]
        rfl
      · exact ih sp im root resolves _ acc' h raw' hmem

theorem buildStatusGroups_ok {acc : GroupLists} {out : IStatusGroups}
    (h : buildStatusGroups acc = Except.ok out) :
    out = { conflict := { id := .conflict, resources := acc.conflict }
            merge := { id := .merge, resources := acc.merge }
            staging := { id := .staging, resources := acc.staging }
            working := { id := .working, resources := acc.working }
            untracked := { id := .untracked, resources := acc.untracked } } := by
  rw [buildStatusGroups] at h
  cases hc : indexResources acc.conflict with
  | error e =>
    rw [hc] at h
    cases h
  | ok usc =>
    rw [hc] at h
    cases hm : indexResources acc.merge with
    | error e =>
      rw [hm] at h
      cases h
    | ok usm =>
      rw [hm] at h
      cases hs : indexResources acc.staging with
      | error e =>
        rw [hs] at h
        cases h
      | ok uss =>
        rw [hs] at h
        cases hw : indexResources acc.working with
        | error e =>
          rw [hw] at h
          cases h
        | ok usw =>
          rw [hw] at h
          cases hu : indexResources acc.untracked with
          | error e =>
            rw [hu] at h
            cases h
          | ok usu =>
            rw [hu] at h
            cases h
            rfl

theorem groupStatuses_ok_parts {existsOnDisk : String → Bool} {params : IGroupStatusesParams}
    {out : IStatusGroups} (h : groupStatuses existsOnDisk params = Except.ok out) :
    ∃ acc1 acc2 : GroupLists,
      firstPass params.statusGroups.staging.resources params.repoStatus.isMerge
        params.respositoryRoot params.resolveStatuses params.fileStatuses {} = Except.ok acc1 ∧
      (match params.resolveStatuses with
       | some resolves =>
          secondPass params.statusGroups.staging.resources params.repoStatus.isMerge
            params.respositoryRoot existsOnDisk
            (params.fileStatuses.map (fun raw => mkUri params.respositoryRoot raw.path))
            resolves acc1
       | none => Except.ok acc1) = Except.ok acc2 ∧
      out = { conflict := { id := .conflict, resources := acc2.conflict }
              merge := { id := .merge, resources := acc2.merge }
              staging := { id := .staging, resources := acc2.staging }
              working := { id := .working, resources := acc2.working }
              untracked := { id := .untracked, resources := acc2.untracked } } := by
  rw [groupStatuses] at h
  dsimp only at h
  cases h1 : firstPass params.statusGroups.staging.resources params.repoStatus.isMerge
      params.respositoryRoot params.resolveStatuses params.fileStatuses {} with
  | error e =>
    rw [h1] at h
    cases h
  | ok acc1 =>
    rw [h1] at h
    dsimp only at h
    cases h2 : (match params.resolveStatuses with
      | some resolves =>
          secondPass params.statusGroups.staging.resources params.repoStatus.isMerge
            params.respositoryRoot existsOnDisk
            (params.fileStatuses.map (fun raw : IFileStatus => mkUri params.respositoryRoot raw.path))
            resolves acc1
      | none => Except.ok acc1) with
    | error e =>
      rw [h2] at h
      cases h
    | ok acc2 =>
      rw [h2] at h
      dsimp only at h
      exact ⟨acc1, acc2, rfl, h2, buildStatusGroups_ok h⟩

theorem GroupLists.get_push (acc : GroupLists) (g g' : ResourceGroupId) (r : Resource) :
    (acc.push g r).get g' = if g' = g then acc.get g' ++ [r] else acc.get g' := by
  cases g <;> cases g' <;> simp [GroupLists.push, GroupLists.get]

theorem GroupLists.mem_get_push {acc : GroupLists} {g g' : ResourceGroupId} {r r' : Resource} :
    r' ∈ (acc.push g r).get g' ↔ r' ∈ acc.get g' ∨ (g' = g ∧ r' = r) := by
  rw [GroupLists.get_push]
  by_cases h : g' = g
  · simp [h]
  · simp [h]

theorem GroupLists.total_push (acc : GroupLists) (g : ResourceGroupId) (r : Resource) :
    (acc.push g r).total = acc.total + 1 := by
  cases g <;> simp [GroupLists.push, GroupLists.total] <;> omega

theorem GroupLists.get_empty (g : ResourceGroupId) : ({} : GroupLists).get g = [] := by
  cases g <;> rfl

theorem mkUri_inj {root p₁ p₂ : String} (h : mkUri root p₁ = mkUri root p₂) : p₁ = p₂ := by
  have hd := congrArg String.data h
  simp only [mkUri, String.data_append] at hd
  exact String.ext (List.append_cancel_left hd)

theorem inGroupList_iff {rs : List Resource} {u : String} :
    inGroupList rs u = true ↔ ∃ r ∈ rs, r.original = u := by
  simp [inGroupList]

theorem firstPass_mem :
    ∀ (fs : List IFileStatus) (sp : List Resource) (im : Bool) (root : String)
      (resolves : Option (List IFileStatus)) (acc acc' : GroupLists),
    firstPass sp im root resolves fs acc = Except.ok acc' →
    ∀ (gid : ResourceGroupId) (r : Resource), r ∈ acc'.get gid →
      r ∈ acc.get gid ∨ ∃ raw ∈ fs, fpEmit sp im root resolves raw gid r := by
  intro fs
  induction fs with
  | nil =>
    intro sp im root resolves acc acc' h gid r hr
    cases h
    exact Or.inl hr
  | cons raw rest ih =>
    intro sp im root resolves acc acc' h gid r hr
    rw [firstPass] at h
    cases hch : chooseResourcesAndGroup sp im (mkUri root raw.path) raw.status
        (fpMergeStatus resolves raw.path) raw.rename.isSome with
    | error e =>
      rw [hch] at h
      cases h
    | ok gs =>
      obtain ⟨gid0, st0⟩ := gs
      rw [hch] at h
      rcases ih sp im root resolves _ acc' h gid r hr with hacc | ⟨raw', hraw', hemit⟩
      · rcases GroupLists.mem_get_push.mp hacc with hacc' | ⟨rfl, rfl⟩
        · exact Or.inl hacc'
        · refine Or.inr ⟨raw, List.mem_cons_self raw rest, rfl, rfl, rfl, rfl, ?_⟩
          exact hch
      · exact Or.inr ⟨raw', List.mem_cons_of_mem raw hraw', hemit⟩

theorem secondPass_mem :
    ∀ (rs : List IFileStatus) (sp : List Resource) (im : Bool) (root : String)
      (existsOnDisk : String → Bool) (seen : List String) (acc acc' : GroupLists),
    secondPass sp im root existsOnDisk seen rs acc = Except.ok acc' →
    ∀ (gid : ResourceGroupId) (r : Resource), r ∈ acc'.get gid →
      r ∈ acc.get gid ∨ ∃ raw ∈ rs, seen.contains (mkUri root raw.path) = false ∧
        spEmit sp im root existsOnDisk raw gid r := by
  intro rs
  induction rs with
  | nil =>
    intro sp im root existsOnDisk seen acc acc' h gid r hr
    cases h
    exact Or.inl hr
  | cons raw rest ih =>
    intro sp im root existsOnDisk seen acc acc' h gid r hr
    rw [secondPass] at h
    by_cases hseen : seen.contains (mkUri root raw.path)
    · rw [if_pos hseen] at h
      rcases ih sp im root existsOnDisk seen acc acc' h gid r hr with hacc | ⟨raw', hraw', hemit⟩
      · exact Or.inl hacc
      · exact Or.inr ⟨raw', List.mem_cons_of_mem raw hraw', hemit⟩
    · rw [if_neg hseen] at h
      dsimp only at h
      cases hch : chooseResourcesAndGroup sp im (mkUri root raw.path)
          (if existsOnDisk (mkUri root raw.path) then "C" else "R")
          (toMergeStatus raw.status) raw.rename.isSome with
      | error e =>
        rw [hch] at h
        cases h
      | ok gs =>
        obtain ⟨gid0, st0⟩ := gs
        rw [hch] at h
        rcases ih sp im root existsOnDisk seen _ acc' h gid r hr with hacc | ⟨raw', hraw', hemit⟩
        · rcases GroupLists.mem_get_push.mp hacc with hacc' | ⟨rfl, rfl⟩
          · exact Or.inl hacc'
          · refine Or.inr ⟨raw, List.mem_cons_self raw rest, by simpa using hseen,
              rfl, rfl, rfl, rfl, ?_⟩
            exact hch
        · exact Or.inr ⟨raw', List.mem_cons_of_mem raw hraw', hemit⟩

theorem firstPass_total :
    ∀ (fs : List IFileStatus) (sp : List Resource) (im : Bool) (root : String)
      (resolves : Option (List IFileStatus)) (acc acc' : GroupLists),
    firstPass sp im root resolves fs acc = Except.ok acc' →
    acc'.total = acc.total + fs.length := by
  intro fs
  induction fs with
  | nil =>
    intro sp im root resolves acc acc' h
    cases h
    simp
  | cons raw rest ih =>
    intro sp im root resolves acc acc' h
    rw [firstPass] at h
    cases hch : chooseResourcesAndGroup sp im (mkUri root raw.path) raw.status
        (fpMergeStatus resolves raw.path) raw.rename.isSome with
    | error e =>
      rw [hch] at h
      cases h
    | ok gs =>
      obtain ⟨gid0, st0⟩ := gs
      rw [hch] at h
      have := ih sp im root resolves _ acc' h
      rw [GroupLists.total_push] at this
      rw [this, List.length_cons]
      omega

theorem secondPass_total :
    ∀ (rs : List IFileStatus) (sp : List Resource) (im : Bool) (root : String)
      (existsOnDisk : String → Bool) (seen : List String) (acc acc' : GroupLists),
    secondPass sp im root existsOnDisk seen rs acc = Except.ok acc' →
    acc'.total = acc.total +
      (rs.filter (fun raw => !(seen.contains (mkUri root raw.path)))).length := by
  intro rs
  induction rs with
  | nil =>
    intro sp im root existsOnDisk seen acc acc' h
    cases h
    simp
  | cons raw rest ih =>
    intro sp im root existsOnDisk seen acc acc' h
    rw [secondPass] at h
    by_cases hseen : seen.contains (mkUri root raw.path)
    · rw [if_pos hseen] at h
      rw [ih sp im root existsOnDisk seen acc acc' h]
      have hb : (!(seen.contains (mkUri root raw.path))) = false := by simpa using hseen
      rw [List.filter_cons, hb, if_neg Bool.false_ne_true]
    · rw [if_neg hseen] at h
      dsimp only at h
      cases hch : chooseResourcesAndGroup sp im (mkUri root raw.path)
          (if existsOnDisk (mkUri root raw.path) then "C" else "R")
          (toMergeStatus raw.status) raw.rename.isSome with
      | error e =>
        rw [hch] at h
        cases h
      | ok gs =>
        obtain ⟨gid0, st0⟩ := gs
        rw [hch] at h
        have := ih sp im root existsOnDisk seen _ acc' h
        rw [GroupLists.total_push] at this
        have hb : (!(seen.contains (mkUri root raw.path))) = true := by simpa using hseen
        rw [this, List.filter_cons, hb, if_pos rfl, List.length_cons]
        omega

theorem outList_build (acc : GroupLists) (gid : ResourceGroupId) :
    outList { conflict := { id := .conflict, resources := acc.conflict }
              merge := { id := .merge, resources := acc.merge }
              staging := { id := .staging, resources := acc.staging }
              working := { id := .working, resources := acc.working }
              untracked := { id := .untracked, resources := acc.untracked } } gid = acc.get gid := by
  cases gid <;> rfl

theorem totalResources_build (acc : GroupLists) :
    totalResources { conflict := { id := .conflict, resources := acc.conflict }
                     merge := { id := .merge, resources := acc.merge }
                     staging := { id := .staging, resources := acc.staging }
                     working := { id := .working, resources := acc.working }
                     untracked := { id := .untracked, resources := acc.untracked } }
      = acc.total := rfl

theorem spEmit_not_untracked {sp : List Resource} {im : Bool} {root : String}
    {existsOnDisk : String → Bool} {raw : IFileStatus} {gid : ResourceGroupId} {r : Resource}
    (h : spEmit sp im root existsOnDisk raw gid r) : gid ≠ ResourceGroupId.untracked := by
  obtain ⟨-, -, -, -, hch⟩ := h
  intro hg
  subst hg
  have hst := (choose_untracked_iff hch).mp rfl
  obtain ⟨hsc, -, -⟩ := choose_ok_inv hch
  cases hex : existsOnDisk (mkUri root raw.path) with
  | true =>
    rw [hex] at hsc
    rw [if_pos rfl] at hsc
    have hC : statusOfRawCode "C" raw.rename.isSome = some Status.CLEAN := rfl
    rw [hC] at hsc
    injection hsc with hsc
    rw [← hsc] at hst
    rcases hst with hst | hst <;> cases hst
  | false =>
    rw [hex] at hsc
    rw [if_neg Bool.false_ne_true] at hsc
    have hR : statusOfRawCode "R" raw.rename.isSome = some Status.DELETED := rfl
    rw [hR] at hsc
    injection hsc with hsc
    rw [← hsc] at hst
    rcases hst with hst | hst <;> cases hst

/-- Provenance of any resource in a successful reconciliation output: it
was emitted by the first pass for some raw record, or synthesized by the
second pass for some unseen resolve record. -/
theorem groupStatuses_mem {existsOnDisk : String → Bool} {params : IGroupStatusesParams}
    {out : IStatusGroups} (h : groupStatuses existsOnDisk params = Except.ok out)
    {gid : ResourceGroupId} {r : Resource} (hr : r ∈ outList out gid) :
    (∃ raw ∈ params.fileStatuses,
      fpEmit params.statusGroups.staging.resources params.repoStatus.isMerge
        params.respositoryRoot params.resolveStatuses raw gid r) ∨
    (∃ raw ∈ params.resolveStatuses.getD [],
      (params.fileStatuses.map
        (fun f => mkUri params.respositoryRoot f.path)).contains
          (mkUri params.respositoryRoot raw.path) = false ∧
      spEmit params.statusGroups.staging.resources params.repoStatus.isMerge
        params.respositoryRoot existsOnDisk raw gid r) := by
  obtain ⟨acc1, acc2, h1, h2, hout⟩ := groupStatuses_ok_parts h
  subst hout
  rw [outList_build] at hr
  cases hres : params.resolveStatuses with
  | none =>
    rw [hres] at h2
    cases h2
    rcases firstPass_mem params.fileStatuses _ _ _ _ _ _ h1 gid r hr with hacc | hemit
    · rw [GroupLists.get_empty] at hacc
      cases hacc
    · rw [hres] at hemit
      exact Or.inl hemit
  | some resolves =>
    rw [hres] at h2
    dsimp only at h2
    rcases secondPass_mem resolves _ _ _ _ _ _ _ h2 gid r hr with hacc | ⟨raw, hraw, hseen, hemit⟩
    · rcases firstPass_mem params.fileStatuses _ _ _ _ _ _ h1 gid r hacc with hacc' | hemit
      · rw [GroupLists.get_empty] at hacc'
        cases hacc'
      · rw [hres] at hemit
        exact Or.inl hemit
    · exact Or.inr ⟨raw, hraw, hseen, hemit⟩

theorem indexResources_mem :
    ∀ (rs : List Resource) (us : List String), indexResources rs = Except.ok us →
    ∀ u : String, (u ∈ us ↔ ∃ r ∈ rs, r.resourceUri = Except.ok u) := by
  intro rs
  induction rs with
  | nil =>
    intro us h u
    cases h
    simp
  | cons r rest ih =>
    intro us h u
    rw [indexResources] at h
    cases hru : r.resourceUri with
    | error e =>
      rw [hru] at h
      cases h
    | ok ru =>
      rw [hru] at h
      cases hrest : indexResources rest with
      | error e =>
        rw [hrest] at h
        cases h
      | ok us' =>
        rw [hrest] at h
        cases h
        constructor
        · intro hu
          rcases List.mem_cons.mp hu with rfl | hu'
          · exact ⟨r, List.mem_cons_self r rest, hru⟩
          · obtain ⟨r', hr', hu''⟩ := (ih us' hrest u).mp hu'
            exact ⟨r', List.mem_cons_of_mem r hr', hu''⟩
        · rintro ⟨r', hr', hu'⟩
          rcases List.mem_cons.mp hr' with rfl | hr''
          · rw [hru] at hu'
            injection hu' with hu'
            rw [← hu']
            exact List.mem_cons_self ru us'
          · exact List.mem_cons_of_mem ru ((ih us' hrest u).mpr ⟨r', hr'', hu'⟩)

theorem indexResources_ok_of_valid :
    ∀ (rs : List Resource), validUris rs → ∃ us, indexResources rs = Except.ok us := by
  intro rs
  induction rs with
  | nil => exact fun _ => ⟨[], rfl⟩
  | cons r rest ih =>
    intro hval
    obtain ⟨u, hu⟩ := hval r (List.mem_cons_self r rest)
    obtain ⟨us, hus⟩ := ih (fun r' hr' => hval r' (List.mem_cons_of_mem r hr'))
    refine ⟨u :: us, ?_⟩
    rw [indexResources, hu, hus]

theorem filterNotInIndex_ok_of_valid (index : List String) :
    ∀ (rs : List Resource), validUris rs →
    ∃ rs', filterNotInIndex index rs = Except.ok rs' := by
  intro rs
  induction rs with
  | nil => exact fun _ => ⟨[], rfl⟩
  | cons r rest ih =>
    intro hval
    obtain ⟨u, hu⟩ := hval r (List.mem_cons_self r rest)
    obtain ⟨rs', hrs'⟩ := ih (fun r' hr' => hval r' (List.mem_cons_of_mem r hr'))
    refine ⟨if index.contains u then rs' else r :: rs', ?_⟩
    rw [filterNotInIndex, hu, hrs']

theorem filterNotInIndex_sub (index : List String) :
    ∀ (rs rs' : List Resource), filterNotInIndex index rs = Except.ok rs' →
    ∀ r' ∈ rs', r' ∈ rs ∧ ∃ u, r'.resourceUri = Except.ok u ∧ index.contains u = false := by
  intro rs
  induction rs with
  | nil =>
    intro rs' h r' hr'
    cases h
    cases hr'
  | cons r rest ih =>
    intro rs' h r' hr'
    rw [filterNotInIndex] at h
    cases hru : r.resourceUri with
    | error e =>
      rw [hru] at h
      cases h
    | ok u =>
      rw [hru] at h
      cases hrest : filterNotInIndex index rest with
      | error e =>
        rw [hrest] at h
        cases h
      | ok rest' =>
        rw [hrest] at h
        cases h
        by_cases hc : index.contains u = true
        · rw [if_pos hc] at hr'
          obtain ⟨hmem, hrest''⟩ := ih rest' hrest r' hr'
          exact ⟨List.mem_cons_of_mem r hmem, hrest''⟩
        · rw [if_neg hc] at hr'
          rcases List.mem_cons.mp hr' with rfl | hr''
          · exact ⟨List.mem_cons_self r' rest, u, hru, Bool.not_eq_true _ ▸ (by simpa using hc)⟩
          · obtain ⟨hmem, hrest''⟩ := ih rest' hrest r' hr''
            exact ⟨List.mem_cons_of_mem r hmem, hrest''⟩

theorem includes_ok_of_valid {g : ResourceGroup} {r : Resource}
    (hvg : validUris g.resources) (hr : ∃ u, r.resourceUri = Except.ok u) :
    ∃ b, g.includes r = Except.ok b := by
  obtain ⟨u, hu⟩ := hr
  obtain ⟨us, hus⟩ := indexResources_ok_of_valid g.resources hvg
  refine ⟨us.contains u, ?_⟩
  rw [ResourceGroup.includes, hu]
  dsimp only
  rw [ResourceGroup.includesUri, hus]

theorem filterNotIncluded_ok_of_valid (g : ResourceGroup) (hvg : validUris g.resources) :
    ∀ (rs : List Resource), validUris rs →
    ∃ rs', filterNotIncluded g rs = Except.ok rs' := by
  intro rs
  induction rs with
  | nil => exact fun _ => ⟨[], rfl⟩
  | cons r rest ih =>
    intro hval
    obtain ⟨b, hb⟩ := includes_ok_of_valid hvg (hval r (List.mem_cons_self r rest))
    obtain ⟨rs', hrs'⟩ := ih (fun r' hr' => hval r' (List.mem_cons_of_mem r hr'))
    refine ⟨if b then rs' else r :: rs', ?_⟩
    rw [filterNotIncluded, hb, hrs']

theorem filterNotIncluded_keep (g : ResourceGroup) :
    ∀ (rs rs' : List Resource), filterNotIncluded g rs = Except.ok rs' →
    ∀ r ∈ rs, g.includes r = Except.ok false → r ∈ rs' := by
  intro rs
  induction rs with
  | nil =>
    intro rs' h r hr
    cases hr
  | cons r₀ rest ih =>
    intro rs' h r hr hinc
    rw [filterNotIncluded] at h
    cases hb : g.includes r₀ with
    | error e =>
      rw [hb] at h
      cases h
    | ok b =>
      rw [hb] at h
      cases hrest : filterNotIncluded g rest with
      | error e =>
        rw [hrest] at h
        cases h
      | ok rest' =>
        rw [hrest] at h
        cases h
        rcases List.mem_cons.mp hr with rfl | hr'
        · rw [hinc] at hb
          injection hb with hb
          rw [← hb, if_neg Bool.false_ne_true]
          exact List.mem_cons_self r rest'
        · have hmem := ih rest' hrest r hr' hinc
          by_cases hbt : b = true
          · rw [if_pos hbt]
            exact hmem
          · rw [if_neg hbt]
            exact List.mem_cons_of_mem r₀ hmem

theorem filterNotIncluded_sub (g : ResourceGroup) :
    ∀ (rs rs' : List Resource), filterNotIncluded g rs = Except.ok rs' →
    ∀ r' ∈ rs', r' ∈ rs := by
  intro rs
  induction rs with
  | nil =>
    intro rs' h r' hr'
    cases h
    cases hr'
  | cons r₀ rest ih =>
    intro rs' h r' hr'
    rw [filterNotIncluded] at h
    cases hb : g.includes r₀ with
    | error e =>
      rw [hb] at h
      cases h
    | ok b =>
      rw [hb] at h
      cases hrest : filterNotIncluded g rest with
      | error e =>
        rw [hrest] at h
        cases h
      | ok rest' =>
        rw [hrest] at h
        cases h
        by_cases hbt : b = true
        · rw [if_pos hbt] at hr'
          exact List.mem_cons_of_mem r₀ (ih rest' hrest r' hr')
        · rw [if_neg hbt] at hr'
          rcases List.mem_cons.mp hr' with rfl | hr''
          · exact List.mem_cons_self r' rest
          · exact List.mem_cons_of_mem r₀ (ih rest' hrest r' hr'')

theorem rehome_ok_of_valid (gid : ResourceGroupId) :
    ∀ (rs : List Resource), validUris rs → ∃ rs', rehome gid rs = Except.ok rs' := by
  intro rs
  induction rs with
  | nil => exact fun _ => ⟨[], rfl⟩
  | cons r rest ih =>
    intro hval
    obtain ⟨u, hu⟩ := hval r (List.mem_cons_self r rest)
    obtain ⟨rs', hrs'⟩ := ih (fun r' hr' => hval r' (List.mem_cons_of_mem r hr'))
    refine ⟨{ resourceGroup := gid, original := u, status := r.status,
              mergeStatus := r.mergeStatus, renameResourceUri := none } :: rs', ?_⟩
    rw [rehome, hu, hrs']

theorem rehome_mem (gid : ResourceGroupId) :
    ∀ (rs rs' : List Resource), rehome gid rs = Except.ok rs' →
    ∀ r ∈ rs, ∀ u : String, r.resourceUri = Except.ok u →
      ({ resourceGroup := gid, original := u, status := r.status,
         mergeStatus := r.mergeStatus, renameResourceUri := none } : Resource) ∈ rs' := by
  intro rs
  induction rs with
  | nil =>
    intro rs' h r hr
    cases hr
  | cons r₀ rest ih =>
    intro rs' h r hr u hu
    rw [rehome] at h
    cases hu₀ : r₀.resourceUri with
    | error e =>
      rw [hu₀] at h
      cases h
    | ok u₀ =>
      rw [hu₀] at h
      cases hrest : rehome gid rest with
      | error e =>
        rw [hrest] at h
        cases h
      | ok rest' =>
        rw [hrest] at h
        cases h
        rcases List.mem_cons.mp hr with rfl | hr'
        · rw [hu₀] at hu
          injection hu with hu
          rw [← hu]
          exact List.mem_cons_self _ rest'
        · exact List.mem_cons_of_mem _ (ih rest' hrest r hr' u hu)

/-! ### Claim theorems -/

/-- C1: the destination of a record is chosen by strict precedence — a
mapped status of IGNORED or UNTRACKED goes to the untracked group
regardless of merge state or staging; otherwise, mid-merge, an UNRESOLVED
merge status goes to conflict and anything else to merge, regardless of
staging; otherwise the record goes to staging exactly when its location is
present (by effective uri) in the previous staging group, else to working. -/
theorem C1_routing (sp : List Resource) (im : Bool) (uriString rawStatus : String)
    (mergeStatus : MergeStatus) (renamed : Bool) (gid : ResourceGroupId) (st : Status)
    (h : chooseResourcesAndGroup sp im uriString rawStatus mergeStatus renamed =
      Except.ok (gid, st)) :
    gid = if st = Status.IGNORED ∨ st = Status.UNTRACKED then ResourceGroupId.untracked
          else if im = true then
            (if mergeStatus = MergeStatus.UNRESOLVED then ResourceGroupId.conflict
             else ResourceGroupId.merge)
          else if ∃ r ∈ sp, r.resourceUri = Except.ok uriString then ResourceGroupId.staging
          else ResourceGroupId.working := by
  obtain ⟨-, hunt, htrk⟩ := choose_ok_inv h
  by_cases hun : st = Status.IGNORED ∨ st = Status.UNTRACKED
  · rw [if_pos hun]
    exact hunt hun
  · rw [if_neg hun]
    obtain ⟨hmt, hmf⟩ := htrk hun
    cases im with
    | true =>
      rw [if_pos rfl]
      rcases hmt rfl with ⟨hms, rfl⟩ | ⟨hms, rfl⟩
      · rw [if_pos hms]
      · rw [if_neg hms]
    | false =>
      rw [if_neg (by simp)]
      rcases hmf rfl with ⟨ha, rfl⟩ | ⟨ha, rfl⟩
      · rw [if_pos ((anyUriEquals_ok_iff sp uriString true ha).mp rfl)]
      · rw [if_neg (fun hex => nomatch ((anyUriEquals_ok_iff sp uriString false ha).mpr hex))]

/-- C1 witness: a modified record outside a merge with empty previous
staging is routed to the working group. -/
theorem C1_witness :
    ResourceGroupId.working =
      if Status.MODIFIED = Status.IGNORED ∨ Status.MODIFIED = Status.UNTRACKED then
        ResourceGroupId.untracked
      else if false = true then
        (if MergeStatus.NONE = MergeStatus.UNRESOLVED then ResourceGroupId.conflict
         else ResourceGroupId.merge)
      else if ∃ r ∈ ([] : List Resource), r.resourceUri = Except.ok "/repo/a.txt" then
        ResourceGroupId.staging
      else ResourceGroupId.working :=
  C1_routing [] false "/repo/a.txt" "M" MergeStatus.NONE false
    ResourceGroupId.working Status.MODIFIED (by decide)

/-- C3: the raw status codes map as `M→MODIFIED, R→DELETED, I→IGNORED,
?→UNTRACKED, !→MISSING, A→RENAMED iff a rename source is present else
ADDED, C→CLEAN`; any other code makes `chooseResourcesAndGroup` throw the
classification error, and a reconciliation whose input carries such a code
never returns a partition (no partial group state is committed). -/
theorem C3_classification :
    (∀ rn : Bool,
      statusOfRawCode "M" rn = some Status.MODIFIED ∧
      statusOfRawCode "R" rn = some Status.DELETED ∧
      statusOfRawCode "I" rn = some Status.IGNORED ∧
      statusOfRawCode "?" rn = some Status.UNTRACKED ∧
      statusOfRawCode "!" rn = some Status.MISSING ∧
      statusOfRawCode "C" rn = some Status.CLEAN) ∧
    (statusOfRawCode "A" true = some Status.RENAMED ∧
      statusOfRawCode "A" false = some Status.ADDED) ∧
    (∀ c : String, c ∉ (["M", "R", "I", "?", "!", "A", "C"] : List String) →
      ∀ (sp : List Resource) (im : Bool) (u : String) (ms : MergeStatus) (rn : Bool),
        chooseResourcesAndGroup sp im u c ms rn =
          Except.error ("Unknown rawStatus: " ++ c)) ∧
    (∀ (existsOnDisk : String → Bool) (params : IGroupStatusesParams),
      (∃ raw ∈ params.fileStatuses, statusOfRawCode raw.status raw.rename.isSome = none) →
      ∀ out : IStatusGroups, groupStatuses existsOnDisk params ≠ Except.ok out) := by
  refine ⟨fun rn => ⟨rfl, rfl, rfl, rfl, rfl, rfl⟩, ⟨rfl, rfl⟩, ?_, ?_⟩
  · intro c hc sp im u ms rn
    have hnone : statusOfRawCode c rn = none := by
      simp only [List.mem_cons, List.not_mem_nil, or_false, not_or] at hc
      obtain ⟨h1, h2, h3, h4, h5, h6, h7⟩ := hc
      rw [statusOfRawCode, if_neg h1, if_neg h2, if_neg h3, if_neg h4, if_neg h5,
        if_neg h6, if_neg h7]
    rw [chooseResourcesAndGroup, hnone]
  · intro existsOnDisk params hbad out h
    obtain ⟨acc1, acc2, h1, -, -⟩ := groupStatuses_ok_parts h
    obtain ⟨raw, hraw, hnone⟩ := hbad
    have := firstPass_ok_classified params.fileStatuses _ _ _ _ _ _ h1 raw hraw
    rw [hnone] at this
    cases this

/-- C3 witness: with an unknown code `X` in the raw status list, the
reconciliation never returns the empty partition (nor any other). -/
theorem C3_witness :
    groupStatuses (fun _ => true) exC3Params ≠ Except.ok createEmptyStatusGroups :=
  C3_classification.2.2.2 (fun _ => true) exC3Params
    ⟨{ path := "a.txt", status := "X" }, by decide, by decide⟩ createEmptyStatusGroups

/-- Classified raw codes and a valid previous staging group make
`chooseResourcesAndGroup` succeed. -/
theorem choose_ok_of_classified {sp : List Resource} {im : Bool} {u c : String}
    {ms : MergeStatus} {rn : Bool} (hval : validUris sp)
    (hsc : (statusOfRawCode c rn).isSome = true) :
    ∃ gs, chooseResourcesAndGroup sp im u c ms rn = Except.ok gs := by
  rw [chooseResourcesAndGroup]
  cases hs : statusOfRawCode c rn with
  | none =>
    rw [hs] at hsc
    exact nomatch hsc
  | some status =>
    dsimp only
    by_cases hun : status = Status.IGNORED ∨ status = Status.UNTRACKED
    · rw [if_pos hun]
      exact ⟨_, rfl⟩
    · rw [if_neg hun]
      cases im with
      | true =>
        rw [if_pos rfl]
        by_cases hms : ms = MergeStatus.UNRESOLVED
        · rw [if_pos hms]
          exact ⟨_, rfl⟩
        · rw [if_neg hms]
          exact ⟨_, rfl⟩
      | false =>
        rw [if_neg (by simp)]
        obtain ⟨b, hb⟩ := anyUriEquals_ok_of_valid sp hval u
        rw [hb]
        cases b
        · exact ⟨_, rfl⟩
        · exact ⟨_, rfl⟩

theorem firstPass_ok_of_classified :
    ∀ (fs : List IFileStatus) (sp : List Resource) (im : Bool) (root : String)
      (resolves : Option (List IFileStatus)) (acc : GroupLists),
    validUris sp →
    (∀ raw ∈ fs, (statusOfRawCode raw.status raw.rename.isSome).isSome = true) →
    ∃ acc', firstPass sp im root resolves fs acc = Except.ok acc' := by
  intro fs
  induction fs with
  | nil =>
    intro sp im root resolves acc _ _
    exact ⟨acc, rfl⟩
  | cons raw rest ih =>
    intro sp im root resolves acc hval hcls
    obtain ⟨gs, hgs⟩ := @choose_ok_of_classified sp im (mkUri root raw.path) raw.status
      (fpMergeStatus resolves raw.path) raw.rename.isSome hval
      (hcls raw (List.mem_cons_self raw rest))
    rw [firstPass, hgs]
    obtain ⟨gid, status⟩ := gs
    exact ih sp im root resolves _ hval (fun raw' h' => hcls raw' (List.mem_cons_of_mem raw h'))

theorem secondPass_ok_of_valid :
    ∀ (rs : List IFileStatus) (sp : List Resource) (im : Bool) (root : String)
      (existsOnDisk : String → Bool) (seen : List String) (acc : GroupLists),
    validUris sp →
    ∃ acc', secondPass sp im root existsOnDisk seen rs acc = Except.ok acc' := by
  intro rs
  induction rs with
  | nil =>
    intro sp im root existsOnDisk seen acc _
    exact ⟨acc, rfl⟩
  | cons raw rest ih =>
    intro sp im root existsOnDisk seen acc hval
    rw [secondPass]
    by_cases hseen : seen.contains (mkUri root raw.path)
    · rw [if_pos hseen]
      exact ih sp im root existsOnDisk seen acc hval
    · rw [if_neg hseen]
      have hcls : (statusOfRawCode (if existsOnDisk (mkUri root raw.path) then "C" else "R")
          raw.rename.isSome).isSome = true := by
        cases existsOnDisk (mkUri root raw.path) <;> simp [statusOfRawCode]
      obtain ⟨gs, hgs⟩ := @choose_ok_of_classified sp im (mkUri root raw.path)
        (if existsOnDisk (mkUri root raw.path) then "C" else "R")
        (toMergeStatus raw.status) raw.rename.isSome hval hcls
      dsimp only
      rw [hgs]
      obtain ⟨gid, status⟩ := gs
      exact ih sp im root existsOnDisk seen _ hval

theorem fpEmit_valid {sp : List Resource} {im : Bool} {root : String}
    {resolves : Option (List IFileStatus)} {raw : IFileStatus} {gid : ResourceGroupId}
    {r : Resource} (he : fpEmit sp im root resolves raw gid r)
    (hrn : raw.rename.isSome = true → raw.status = "M" ∨ raw.status = "A") :
    ∃ u, r.resourceUri = Except.ok u := by
  obtain ⟨ho, hms, hrnr, hrg, hch⟩ := he
  obtain ⟨hsc, -, -⟩ := choose_ok_inv hch
  cases hre : raw.rename with
  | none =>
    rw [hre] at hrnr
    have hn : r.renameResourceUri = none := by
      rw [hrnr]
      rfl
    exact ⟨r.original, by rw [Resource.resourceUri, hn]⟩
  | some p =>
    rw [hre] at hrnr hsc
    have hst : r.status = Status.MODIFIED ∨ r.status = Status.RENAMED ∨
        r.status = Status.ADDED := by
      rcases hrn (by rw [hre]; rfl) with hM | hA
      · rw [hM] at hsc
        have hMs : statusOfRawCode "M" (some p : Option String).isSome =
            some Status.MODIFIED := rfl
        rw [hMs] at hsc
        injection hsc with hsc
        exact Or.inl hsc.symm
      · rw [hA] at hsc
        have hAs : statusOfRawCode "A" (some p : Option String).isSome =
            some Status.RENAMED := rfl
        rw [hAs] at hsc
        injection hsc with hsc
        exact Or.inr (Or.inl hsc.symm)
    have hsome : r.renameResourceUri = some (mkUri root p) := by
      rw [hrnr]
      rfl
    refine ⟨mkUri root p, ?_⟩
    rw [Resource.resourceUri, hsome]
    dsimp only
    rw [if_pos hst]

theorem spEmit_valid {sp : List Resource} {im : Bool} {root : String}
    {existsOnDisk : String → Bool} {raw : IFileStatus} {gid : ResourceGroupId} {r : Resource}
    (he : spEmit sp im root existsOnDisk raw gid r) :
    ∃ u, r.resourceUri = Except.ok u := by
  obtain ⟨-, -, hrnr, -, -⟩ := he
  exact ⟨r.original, by rw [Resource.resourceUri, hrnr]⟩

theorem buildStatusGroups_ok_of_valid (acc : GroupLists)
    (hv : ∀ gid : ResourceGroupId, validUris (acc.get gid)) :
    ∃ out, buildStatusGroups acc = Except.ok out := by
  obtain ⟨us1, h1⟩ := indexResources_ok_of_valid acc.conflict (hv ResourceGroupId.conflict)
  obtain ⟨us2, h2⟩ := indexResources_ok_of_valid acc.merge (hv ResourceGroupId.merge)
  obtain ⟨us3, h3⟩ := indexResources_ok_of_valid acc.staging (hv ResourceGroupId.staging)
  obtain ⟨us4, h4⟩ := indexResources_ok_of_valid acc.working (hv ResourceGroupId.working)
  obtain ⟨us5, h5⟩ := indexResources_ok_of_valid acc.untracked (hv ResourceGroupId.untracked)
  refine ⟨{ conflict := { id := .conflict, resources := acc.conflict }
            merge := { id := .merge, resources := acc.merge }
            staging := { id := .staging, resources := acc.staging }
            working := { id := .working, resources := acc.working }
            untracked := { id := .untracked, resources := acc.untracked } }, ?_⟩
  rw [buildStatusGroups, h1, h2, h3, h4, h5]

theorem groupStatuses_ok_of (existsOnDisk : String → Bool) (params : IGroupStatusesParams)
    (hval : validUris params.statusGroups.staging.resources)
    (hcls : ∀ raw ∈ params.fileStatuses,
      (statusOfRawCode raw.status raw.rename.isSome).isSome = true)
    (hrn : ∀ raw ∈ params.fileStatuses, raw.rename.isSome = true →
      raw.status = "M" ∨ raw.status = "A") :
    ∃ out, groupStatuses existsOnDisk params = Except.ok out := by
  obtain ⟨acc1, h1⟩ := firstPass_ok_of_classified params.fileStatuses
    params.statusGroups.staging.resources params.repoStatus.isMerge params.respositoryRoot
    params.resolveStatuses {} hval hcls
  have hv1 : ∀ gid : ResourceGroupId, validUris (acc1.get gid) := by
    intro gid r hr
    rcases firstPass_mem params.fileStatuses _ _ _ _ _ _ h1 gid r hr with
      hacc | ⟨raw, hraw, hemit⟩
    · rw [GroupLists.get_empty] at hacc
      cases hacc
    · exact fpEmit_valid hemit (hrn raw hraw)
  rw [groupStatuses]
  dsimp only
  rw [h1]
  cases hres : params.resolveStatuses with
  | none =>
    exact buildStatusGroups_ok_of_valid acc1 hv1
  | some resolves =>
    dsimp only
    obtain ⟨acc2, h2⟩ := secondPass_ok_of_valid resolves
      params.statusGroups.staging.resources params.repoStatus.isMerge params.respositoryRoot
      existsOnDisk (params.fileStatuses.map (fun raw => mkUri params.respositoryRoot raw.path))
      acc1 hval
    have hv2 : ∀ gid : ResourceGroupId, validUris (acc2.get gid) := by
      intro gid r hr
      rcases secondPass_mem resolves _ _ _ _ _ _ _ h2 gid r hr with
        hacc | ⟨raw, hraw, -, hemit⟩
      · exact hv1 gid r hacc
      · exact spEmit_valid hemit
    rw [h2]
    exact buildStatusGroups_ok_of_valid acc2 hv2

/-- C10: `toMergeStatus` is total over status strings — `R` maps to
RESOLVED, `U` to UNRESOLVED and every other string to NONE — so an
unrecognized code in a resolution record never raises a classification
error: for raw status records that are themselves well formed (classified
codes, rename sources only on `M`/`A` records, which rules out the
unrelated rename-getter throw in the output group constructors) and a
previous staging group whose getters do not throw, reconciliation
succeeds for *every* resolve list, whatever strings appear as its status
codes (unlike the raw-status mapping, where an unknown code is fatal,
cf. the classification theorem). -/
theorem C10_toMergeStatus_total :
    toMergeStatus "R" = MergeStatus.RESOLVED ∧
    toMergeStatus "U" = MergeStatus.UNRESOLVED ∧
    (∀ s : String, s ≠ "R" → s ≠ "U" → toMergeStatus s = MergeStatus.NONE) ∧
    (∀ (existsOnDisk : String → Bool) (params : IGroupStatusesParams),
      validUris params.statusGroups.staging.resources →
      (∀ raw ∈ params.fileStatuses,
        (statusOfRawCode raw.status raw.rename.isSome).isSome = true) →
      (∀ raw ∈ params.fileStatuses, raw.rename.isSome = true →
        raw.status = "M" ∨ raw.status = "A") →
      ∃ out, groupStatuses existsOnDisk params = Except.ok out) := by
  refine ⟨rfl, rfl, ?_, ?_⟩
  · intro s h1 h2
    rw [toMergeStatus, if_neg h1, if_neg h2]
  · intro existsOnDisk params hval hcls hrn
    exact groupStatuses_ok_of existsOnDisk params hval hcls hrn

/-- C10 witness: resolve records with the unrecognized codes `Z` and `Q`
do not make the reconciliation fail. -/
theorem C10_witness :
    groupStatuses (fun _ => true) exC10Params =
      Except.ok (groupsOfResult (groupStatuses (fun _ => true) exC10Params)) := by
  obtain ⟨out, hout⟩ := C10_toMergeStatus_total.2.2.2 (fun _ => true) exC10Params
    (fun r hr => absurd hr (List.not_mem_nil r)) (by decide) (by decide)
  rw [hout]
  rfl

/-- C6 counterexample: for a tracker in which `Commit` is already running,
`start(Commit).end(Commit)` clears the bit instead of restoring the prior
state, so `t.start(op).end(op) = t` fails. -/
theorem C6_counterexample :
    ¬ (((OperationsImpl.mk Operation.Commit.flag).start Operation.Commit).«end» Operation.Commit
        = OperationsImpl.mk Operation.Commit.flag) := by
  decide

/-- C6 (amended): provided `op` is not already running and the mask is a
32-bit value, `t.start(op).end(op)` restores the prior state exactly; and
`isRunning(op)` returns true exactly when `op`'s bit is set in the mask.
(`start`/`end` build fresh `OperationsImpl` values — in this embedding they
are pure functions of the receiver.) -/
theorem C6_tracker_start_end (t : OperationsImpl) (op : Operation)
    (h32 : t.operations < 2 ^ 32) (hnr : t.isRunning op = false) :
    (t.start op).«end» op = t ∧
    ∀ op' : Operation, (t.isRunning op' = true ↔ t.operations.testBit op'.bitIndex = true) := by
  constructor
  · have hand : t.operations &&& 2 ^ op.bitIndex = 0 := by
      rw [OperationsImpl.isRunning, Operation.flag_eq_two_pow] at hnr
      simpa using hnr
    have := start_end_mask t.operations op.bitIndex (Operation.bitIndex_lt_32 op) h32 hand
    rcases t with ⟨x⟩
    simp only [OperationsImpl.start, OperationsImpl.«end», Operation.flag_eq_two_pow]
    exact congrArg OperationsImpl.mk this
  · intro op'
    rw [isRunning_eq_testBit]

/-- C6 witness: at the idle tracker and `Commit`, the hypotheses hold and
`start(Commit).end(Commit)` is the idle tracker again. -/
theorem C6_witness :
    ((OperationsImpl.mk 0).start Operation.Commit).«end» Operation.Commit = OperationsImpl.mk 0 :=
  (C6_tracker_start_end (OperationsImpl.mk 0) Operation.Commit (by decide) (by decide)).1

/-- C7 counterexample: with the lock always present, the first sleep of the
backoff is 140ms (the 100ms seed is multiplied by 1.4 *before* the first
`timeout`), not the claimed initial wait of 100ms. -/
theorem C7_counterexample :
    (whenUnlockedWaits (fun _ => true)).getD 0 0 = 140 ∧ (140 : ℚ) ≠ 100 := by
  constructor
  · rw [whenUnlockedWaits, backoffLoop]
    norm_num
  · norm_num

/-- C7 (amended): the index-lock wait performs at most 10 retries and the
`k`-th sleep (0-based) lasts `100 · 1.4^(k+1)` milliseconds — an initial
wait of 140ms growing by ×1.4 per retry — and the loop returns regardless
of whether the lock file still exists once the retry cap is reached (it
always returns the finite wait list, for every lock oracle). -/
theorem C7_backoff (lockExists : Nat → Bool) :
    (whenUnlockedWaits lockExists).length ≤ 10 ∧
    ∀ k : Nat, (whenUnlockedWaits lockExists).getD k 0 =
      if k < (whenUnlockedWaits lockExists).length then 100 * (14 / 10) ^ (k + 1) else 0 :=
  ⟨backoffLoop_length_le 10 lockExists 100 0 (by omega),
   fun k => backoffLoop_getD 10 lockExists 100 0 (by omega) k⟩

/-- C8: with a rename source present, `resourceUri` yields the rename
source exactly for statuses MODIFIED, RENAMED and ADDED and throws for any
other status; without a rename source it yields the original location. -/
theorem C8_resourceUri (r : Resource) :
    (∀ u : String, r.renameResourceUri = some u →
      ((r.status = Status.MODIFIED ∨ r.status = Status.RENAMED ∨ r.status = Status.ADDED) →
        r.resourceUri = Except.ok u) ∧
      (¬(r.status = Status.MODIFIED ∨ r.status = Status.RENAMED ∨ r.status = Status.ADDED) →
        r.resourceUri =
          Except.error ("Renamed resource with unexpected status: " ++ toString r.status.code))) ∧
    (r.renameResourceUri = none → r.resourceUri = Except.ok r.original) := by
  constructor
  · intro u hu
    constructor
    · intro hst
      rw [Resource.resourceUri, hu]
      simp [hst]
    · intro hst
      rw [Resource.resourceUri, hu]
      simp [hst]
  · intro hn
    rw [Resource.resourceUri, hn]

/-- C8 witness: a DELETED resource with a rename source set errors. -/
theorem C8_witness :
    ({ resourceGroup := ResourceGroupId.working, original := "/repo/b", status := Status.DELETED,
       mergeStatus := MergeStatus.NONE, renameResourceUri := some "/repo/c" } : Resource).resourceUri
      = Except.error ("Renamed resource with unexpected status: " ++ toString Status.DELETED.code) :=
  ((C8_resourceUri _).1 "/repo/c" rfl).2 (by decide)

/-- C9: starting from a non-negative counter, the optimistic immediate
update of `countIncomingAfterDelay`/`countOutgoingAfterDelay` sets the
counter to `max 0 (previous + delta)` for every delta (a zero delta skips
the write but leaves the same value), so the optimistic path can never
drive a sync counter negative. -/
theorem C9_optimistic_clamp (prev delta : Int) (h : 0 ≤ prev) :
    countIncomingOptimistic prev delta = max 0 (prev + delta) ∧
    0 ≤ countIncomingOptimistic prev delta ∧
    countOutgoingOptimistic prev delta = max 0 (prev + delta) ∧
    0 ≤ countOutgoingOptimistic prev delta := by
  unfold countIncomingOptimistic countOutgoingOptimistic
  rcases eq_or_ne delta 0 with hd | hd
  · simp only [hd, ne_eq, not_true_eq_false, if_false, add_zero, max_eq_right h]
    exact ⟨trivial, h, trivial, h⟩
  · simp only [ne_eq, hd, not_false_eq_true, if_true]
    exact ⟨trivial, le_max_left _ _, trivial, le_max_left _ _⟩

/-- C9 witness: at counter 0 and delta −5, the incoming counter clamps to 0. -/
theorem C9_witness :
    countIncomingOptimistic 0 (-5) = max 0 (0 + (-5)) ∧ 0 ≤ countOutgoingOptimistic 0 (-5) :=
  ⟨(C9_optimistic_clamp 0 (-5) (by decide)).1, (C9_optimistic_clamp 0 (-5) (by decide)).2.2.2⟩



/-- C2 counterexample: with two resolve records for the same path (`U` then
`R`) and an empty raw status list, mid-merge, the location lands in both
the conflict group and the merge group — the second pass never extends
`seenUriStrings`, so the five groups are not a partition for every input. -/
theorem C2_counterexample :
    inGroupList (outList (groupsOfResult (groupStatuses (fun _ => true) exC2Params))
      ResourceGroupId.conflict) (mkUri "/repo" "a") = true ∧
    inGroupList (outList (groupsOfResult (groupStatuses (fun _ => true) exC2Params))
      ResourceGroupId.merge) (mkUri "/repo" "a") = true := by
  exact ⟨rfl, rfl⟩

/-- C2 (amended): provided the resolve list names each path at most once,
a file location can appear in two distinct output groups only if one of
the two groups is the untracked group *and* the raw status list itself
contains duplicate locations; in particular the four tracked groups are
pairwise disjoint, and all five are when the raw status records carry
pairwise-distinct locations. -/
theorem C2_partition (existsOnDisk : String → Bool) (params : IGroupStatusesParams)
    (out : IStatusGroups)
    (hres : ((params.resolveStatuses.getD []).map IFileStatus.path).Nodup)
    (h : groupStatuses existsOnDisk params = Except.ok out) :
    ∀ (u : String) (g₁ g₂ : ResourceGroupId), g₁ ≠ g₂ →
      inGroupList (outList out g₁) u = true →
      inGroupList (outList out g₂) u = true →
      (g₁ = ResourceGroupId.untracked ∨ g₂ = ResourceGroupId.untracked) ∧
      ¬ (params.fileStatuses.map
          (fun f => mkUri params.respositoryRoot f.path)).Nodup := by
  intro u g₁ g₂ hne h₁ h₂
  obtain ⟨r₁, hr₁, ho₁⟩ := inGroupList_iff.mp h₁
  obtain ⟨r₂, hr₂, ho₂⟩ := inGroupList_iff.mp h₂
  rcases groupStatuses_mem h hr₁ with ⟨raw₁, hraw₁, he₁⟩ | ⟨raw₁, hraw₁, hs₁, he₁⟩
  · rcases groupStatuses_mem h hr₂ with ⟨raw₂, hraw₂, he₂⟩ | ⟨raw₂, hraw₂, hs₂, he₂⟩
    · obtain ⟨hou₁, -, -, -, hch₁⟩ := he₁
      obtain ⟨hou₂, -, -, -, hch₂⟩ := he₂
      have hpath : raw₁.path = raw₂.path := by
        apply @mkUri_inj params.respositoryRoot raw₁.path raw₂.path
        rw [← hou₁, ← hou₂, ho₁, ho₂]
      rw [hpath] at hch₁
      constructor
      · by_cases hu₁ : g₁ = ResourceGroupId.untracked
        · exact Or.inl hu₁
        · by_cases hu₂ : g₂ = ResourceGroupId.untracked
          · exact Or.inr hu₂
          · exact absurd (choose_tracked_dest hch₁ hch₂ hu₁ hu₂) hne
      · intro hnd
        have hraweq : raw₁ = raw₂ :=
          List.inj_on_of_nodup_map hnd hraw₁ hraw₂
            (by rw [hpath])
        rw [hraweq] at hch₁
        have hpair := hch₁.symm.trans hch₂
        injection hpair with hpq
        injection hpq with hg hst2
        exact hne hg
    · exfalso
      obtain ⟨hou₁, -, -, -, -⟩ := he₁
      obtain ⟨hou₂, -, -, -, -⟩ := he₂
      have humem : mkUri params.respositoryRoot raw₂.path ∈
          params.fileStatuses.map (fun f => mkUri params.respositoryRoot f.path) := by
        have heq : mkUri params.respositoryRoot raw₂.path =
            mkUri params.respositoryRoot raw₁.path := by
          rw [← hou₁, ← hou₂, ho₁, ho₂]
        rw [heq]
        exact List.mem_map_of_mem _ hraw₁
      have hno : ¬(mkUri params.respositoryRoot raw₂.path ∈
          params.fileStatuses.map (fun f => mkUri params.respositoryRoot f.path)) := by
        simpa using hs₂
      exact hno humem
  · rcases groupStatuses_mem h hr₂ with ⟨raw₂, hraw₂, he₂⟩ | ⟨raw₂, hraw₂, hs₂, he₂⟩
    · exfalso
      obtain ⟨hou₁, -, -, -, -⟩ := he₁
      obtain ⟨hou₂, -, -, -, -⟩ := he₂
      have humem : mkUri params.respositoryRoot raw₁.path ∈
          params.fileStatuses.map (fun f => mkUri params.respositoryRoot f.path) := by
        have heq : mkUri params.respositoryRoot raw₁.path =
            mkUri params.respositoryRoot raw₂.path := by
          rw [← hou₁, ← hou₂, ho₁, ho₂]
        rw [heq]
        exact List.mem_map_of_mem _ hraw₂
      have hno : ¬(mkUri params.respositoryRoot raw₁.path ∈
          params.fileStatuses.map (fun f => mkUri params.respositoryRoot f.path)) := by
        simpa using hs₁
      exact hno humem
    · exfalso
      obtain ⟨hou₁, -, -, -, hch₁⟩ := he₁
      obtain ⟨hou₂, -, -, -, hch₂⟩ := he₂
      have hpath : raw₁.path = raw₂.path := by
        apply @mkUri_inj params.respositoryRoot raw₁.path raw₂.path
        rw [← hou₁, ← hou₂, ho₁, ho₂]
      have hraweq : raw₁ = raw₂ := List.inj_on_of_nodup_map hres hraw₁ hraw₂ hpath
      rw [hraweq] at hch₁
      have hpair := hch₁.symm.trans hch₂
      injection hpair with hpq
      injection hpq with hg hst2
      exact hne hg

/-- C2 witness: duplicate locations in the raw status list (`a` modified
and `a` untracked) put the location in both working and untracked — and
the amended theorem correctly attributes this to the untracked exemption
and the duplicate raw locations. -/
theorem C2_witness :
    (ResourceGroupId.working = ResourceGroupId.untracked ∨
      ResourceGroupId.untracked = ResourceGroupId.untracked) ∧
    ¬ (exC2WParams.fileStatuses.map
        (fun f => mkUri exC2WParams.respositoryRoot f.path)).Nodup :=
  C2_partition (fun _ => true) exC2WParams
    (groupsOfResult (groupStatuses (fun _ => true) exC2WParams)) (by decide) rfl
    (mkUri "/repo" "a") ResourceGroupId.working ResourceGroupId.untracked
    (by decide) (by decide) (by decide)

/-- C4: in a successful reconciliation, every raw status record emits
exactly one resource and every resolve record whose location was not
emitted by the first pass contributes exactly one more (a resolve record
whose path appears in the raw status list is handled only by the first
pass and contributes nothing); each synthesized resource has its raw
status inferred as `C` when the file exists on disk and `R` otherwise, no
rename binding, its merge status from its resolve record, and is routed
through the same `chooseResourcesAndGroup` logic. -/
theorem C4_resolution_synthesis (existsOnDisk : String → Bool) (params : IGroupStatusesParams)
    (out : IStatusGroups) (h : groupStatuses existsOnDisk params = Except.ok out) :
    totalResources out = params.fileStatuses.length +
      ((params.resolveStatuses.getD []).filter
        (fun raw => !((params.fileStatuses.map
          (fun f => mkUri params.respositoryRoot f.path)).contains
            (mkUri params.respositoryRoot raw.path)))).length ∧
    ∀ gid : ResourceGroupId, ∀ r ∈ outList out gid,
      r.original ∉ params.fileStatuses.map (fun f => mkUri params.respositoryRoot f.path) →
      r.status = (if existsOnDisk r.original then Status.CLEAN else Status.DELETED) ∧
      r.renameResourceUri = none ∧
      ∃ raw ∈ params.resolveStatuses.getD [],
        r.original = mkUri params.respositoryRoot raw.path ∧
        r.mergeStatus = toMergeStatus raw.status ∧
        chooseResourcesAndGroup params.statusGroups.staging.resources params.repoStatus.isMerge
          r.original (if existsOnDisk r.original then "C" else "R")
          (toMergeStatus raw.status) raw.rename.isSome = Except.ok (gid, r.status) := by
  constructor
  · obtain ⟨acc1, acc2, h1, h2, hout⟩ := groupStatuses_ok_parts h
    subst hout
    have ht1 := firstPass_total params.fileStatuses _ _ _ _ _ _ h1
    cases hres : params.resolveStatuses with
    | none =>
      rw [hres] at h2
      cases h2
      rw [totalResources_build]
      simpa [GroupLists.total] using ht1
    | some resolves =>
      rw [hres] at h2
      dsimp only at h2
      have ht2 := secondPass_total resolves _ _ _ _ _ _ _ h2
      rw [ht1] at ht2
      rw [totalResources_build]
      simpa [GroupLists.total] using ht2
  · intro gid r hr hnot
    rcases groupStatuses_mem h hr with ⟨raw, hraw, hemit⟩ | ⟨raw, hraw, hseen, hemit⟩
    · obtain ⟨ho, -, -, -, -⟩ := hemit
      exact absurd (by rw [ho]; exact List.mem_map_of_mem _ hraw) hnot
    · obtain ⟨ho, hms, hrn, hrg, hch⟩ := hemit
      obtain ⟨hsc, -, -⟩ := choose_ok_inv hch
      refine ⟨?_, hrn, raw, hraw, ho, hms, ?_⟩
      · rw [ho]
        cases hex : existsOnDisk (mkUri params.respositoryRoot raw.path) with
        | true =>
          rw [hex] at hsc
          rw [if_pos rfl] at hsc
          have hC : statusOfRawCode "C" raw.rename.isSome = some Status.CLEAN := rfl
          rw [hC] at hsc
          injection hsc with hsc
          rw [if_pos rfl, ← hsc]
        | false =>
          rw [hex] at hsc
          rw [if_neg Bool.false_ne_true] at hsc
          have hR : statusOfRawCode "R" raw.rename.isSome = some Status.DELETED := rfl
          rw [hR] at hsc
          injection hsc with hsc
          rw [if_neg Bool.false_ne_true, ← hsc]
      · rw [ho]
        exact hch

/-- C4 witness: Scenario D plus a seen resolve record — one raw record and
two resolve records, one of which shares the raw record's path; the total
is 1 (raw) + 1 (only the unseen resolve record). -/
theorem C4_witness :
    totalResources (groupsOfResult (groupStatuses (fun _ => false) exC4Params)) = 2 := by
  have h := (C4_resolution_synthesis (fun _ => false) exC4Params
    (groupsOfResult (groupStatuses (fun _ => false) exC4Params)) rfl).1
  rw [h]
  decide

/-- C5: for every group `G` and resource list `L` whose uri getters do not
throw — `G.except(L).includes(r)` is false for every `r ∈ L`; `G.intersect(L)`
keeps every resource of `G` as-is (the result is `G`'s resources followed by
a suffix) and, for every element of `L` not already present by
file-location identity, contains a fresh resource owned by the result
group's identity that preserves status and merge status and carries no
rename binding; both recombinations succeed. -/
theorem C5_recombination (g : ResourceGroup) (L : List Resource)
    (hvg : validUris g.resources) (hvl : validUris L) :
    (∃ g' : ResourceGroup, g.except L = Except.ok g') ∧
    (∀ g' : ResourceGroup, g.except L = Except.ok g' →
      g'.id = g.id ∧ ∀ r ∈ L, g'.includes r = Except.ok false) ∧
    (∃ g' : ResourceGroup, g.intersect L = Except.ok g') ∧
    (∀ g' : ResourceGroup, g.intersect L = Except.ok g' →
      g'.id = g.id ∧
      (∃ suffix : List Resource, g'.resources = g.resources ++ suffix) ∧
      (∀ r ∈ L, g.includes r = Except.ok false →
        ∃ u : String, r.resourceUri = Except.ok u ∧
          ({ resourceGroup := g.id, original := u, status := r.status,
             mergeStatus := r.mergeStatus, renameResourceUri := none } : Resource)
            ∈ g'.resources)) := by
  obtain ⟨idx, hidx⟩ := indexResources_ok_of_valid L hvl
  obtain ⟨rem, hrem⟩ := filterNotInIndex_ok_of_valid idx g.resources hvg
  obtain ⟨L', hL'⟩ := filterNotIncluded_ok_of_valid g hvg L hvl
  have hvl' : validUris L' := fun r' hr' => hvl r' (filterNotIncluded_sub g L L' hL' r' hr')
  obtain ⟨L'', hL''⟩ := rehome_ok_of_valid g.id L' hvl'
  refine ⟨⟨{ id := g.id, resources := rem }, ?_⟩, ?_, ?_, ?_⟩
  · rw [ResourceGroup.except, hidx]
    dsimp only
    rw [hrem]
  · intro g' hg'
    rw [ResourceGroup.except, hidx] at hg'
    dsimp only at hg'
    rw [hrem] at hg'
    dsimp only at hg'
    cases hg'
    refine ⟨rfl, ?_⟩
    intro r hrL
    obtain ⟨u, hu⟩ := hvl r hrL
    have hvrem : validUris rem := fun r' hr' =>
      hvg r' ((filterNotInIndex_sub idx g.resources rem hrem r' hr').1)
    obtain ⟨us, hus⟩ := indexResources_ok_of_valid rem hvrem
    have hcont : us.contains u = false := by
      by_contra hcon
      have humem : u ∈ us := by
        rcases hc : us.contains u with _ | _
        · exact absurd hc hcon
        · simpa using hc
      obtain ⟨r', hr', hu'⟩ := (indexResources_mem rem us hus u).mp humem
      obtain ⟨-, u₂, hu₂, hc₂⟩ := filterNotInIndex_sub idx g.resources rem hrem r' hr'
      rw [hu'] at hu₂
      injection hu₂ with hu₂
      have huidx : u ∈ idx := (indexResources_mem L idx hidx u).mpr ⟨r, hrL, hu⟩
      rw [← hu₂] at hc₂
      have : idx.contains u = true := by simpa using huidx
      rw [this] at hc₂
      cases hc₂
    rw [ResourceGroup.includes, hu]
    dsimp only
    rw [ResourceGroup.includesUri]
    dsimp only
    rw [hus]
    dsimp only
    rw [hcont]
  · refine ⟨{ id := g.id, resources := g.resources ++ L'' }, ?_⟩
    rw [ResourceGroup.intersect, hL']
    dsimp only
    rw [hL'']
  · intro g' hg'
    rw [ResourceGroup.intersect, hL'] at hg'
    dsimp only at hg'
    rw [hL''] at hg'
    dsimp only at hg'
    cases hg'
    refine ⟨rfl, ⟨L'', rfl⟩, ?_⟩
    intro r hrL hninc
    obtain ⟨u, hu⟩ := hvl r hrL
    have hmemL' : r ∈ L' := filterNotIncluded_keep g L L' hL' r hrL hninc
    exact ⟨u, hu, List.mem_append_right _ (rehome_mem g.id L' L'' hL'' r hmemL' u hu)⟩

/-- C5 witness: for a staging group holding `a.txt` and an input list
holding `a.txt` plus a renamed resource, `except` removes `a.txt` and the
result no longer includes it. -/
theorem C5_witness :
    ResourceGroup.includes { id := ResourceGroupId.staging, resources := [] }
      { resourceGroup := ResourceGroupId.staging, original := "/repo/a.txt",
        status := Status.MODIFIED, mergeStatus := MergeStatus.NONE } = Except.ok false := by
  have hvg : validUris exC5Group.resources := by
    intro r hr
    simp only [exC5Group, List.mem_singleton] at hr
    rw [hr]
    exact ⟨"/repo/a.txt", rfl⟩
  have hvl : validUris exC5List := by
    intro r hr
    simp only [exC5List, List.mem_cons, List.not_mem_nil, or_false] at hr
    rcases hr with rfl | rfl
    · exact ⟨"/repo/a.txt", rfl⟩
    · exact ⟨"/repo/c.txt", rfl⟩
  exact ((C5_recombination exC5Group exC5List hvg hvl).2.1
    { id := ResourceGroupId.staging, resources := [] } (by decide)).2
    { resourceGroup := ResourceGroupId.staging, original := "/repo/a.txt",
      status := Status.MODIFIED, mergeStatus := MergeStatus.NONE } (by decide)

end VscodeHg
